import Mathlib

/-!
Verification development for the rss_feed repository (a Node.js RSS feed
generator). The definitions below are a shallow embedding of the relevant
source functions: pure computations become Lean functions, stateful services
become explicit state passing, time is an explicit millisecond parameter, and
network I/O is abstracted by oracles giving the outcome of each outbound
attempt. File and line references point into the repository sources.
-/

/- ===================== HttpService (src/services/httpService.js) ========= -/

/-- Outcome of a single axios.get attempt as observed by the service: success,
or an error carrying an optional HTTP status. The status is none for network
errors, where error.response is undefined. -/
inductive AttemptOutcome where
  | ok
  | err (status : Option Nat)
deriving DecidableEq

/-- Status codes for which HttpService.makeRequestWithRetry does not retry
(httpService.js lines 156-169, noRetryStatuses). -/
def noRetryStatuses : List Nat := [400, 401, 403, 404, 405, 406, 410, 451]

/-- Model of HttpService.shouldNotRetry (httpService.js lines 156-169). A
network error has no status, and noRetryStatuses.includes(undefined) is
false in JavaScript, so such errors are retried. -/
def shouldNotRetry : Option Nat → Bool
  | some s => noRetryStatuses.contains s
  | none => false

/-- True when an attempt failed with an error that the retry loop retries. -/
def retryableFail : AttemptOutcome → Bool
  | .ok => false
  | .err st => !shouldNotRetry st

/-- Result of HttpService.makeRequestWithRetry: whether a response was
returned, the status of the thrown error otherwise, the number of axios.get
attempts made, and the backoff delays in ms awaited between attempts. -/
structure RetryResult where
  ok : Bool
  errStatus : Option (Option Nat)
  attempts : Nat
  delays : List Nat
deriving DecidableEq

/-- Model of the for-loop of HttpService.makeRequestWithRetry (httpService.js
lines 110-149). attempt is the 1-based loop counter; remaining is the number
of attempts still allowed, the current one included. The oracle gives the
outcome of the n-th axios.get call. After a failed attempt the loop throws
immediately for no-retry statuses, breaks on the last attempt, and otherwise
awaits min(1000 * 2 ^ (attempt - 1), 5000) ms before the next attempt. -/
def retryAux (oracle : Nat → AttemptOutcome) : Nat → Nat → RetryResult
  | _, 0 => ⟨false, some none, 0, []⟩
  | attempt, remaining + 1 =>
    match oracle attempt with
    | .ok => ⟨true, none, 1, []⟩
    | .err st =>
      if shouldNotRetry st then ⟨false, some st, 1, []⟩
      else if remaining = 0 then ⟨false, some st, 1, []⟩
      else
        let d := min (1000 * 2 ^ (attempt - 1)) 5000
        let r := retryAux oracle (attempt + 1) remaining
        ⟨r.ok, r.errStatus, r.attempts + 1, d :: r.delays⟩

/-- maxRetries constant of makeRequestWithRetry (httpService.js line 111). -/
def maxRetries : Nat := 3

/-- Model of HttpService.makeRequestWithRetry: run the attempt loop starting
at attempt 1 with maxRetries attempts allowed. -/
def makeRequestWithRetry (oracle : Nat → AttemptOutcome) : RetryResult :=
  retryAux oracle 1 maxRetries

/-- Circuit-breaker state of the HttpService for one fixed URL: the entry of
urlFailCounts, membership in the blockedUrls set, and the pending setTimeout
unblock timers (absolute ms times) scheduled by handleRequestError
(httpService.js lines 44-51 and 176-200). -/
structure CircuitState where
  failCount : Nat
  blocked : Bool
  timers : List Nat
deriving DecidableEq

/-- Each pending unblock timer whose time has arrived deletes the URL from
blockedUrls and from urlFailCounts (httpService.js lines 194-198). Timers are
processed lazily at the next call, which is observation-equivalent since only
calls read the state. -/
def fireTimers (st : CircuitState) (now : Nat) : CircuitState :=
  if st.timers.any (fun t => t ≤ now) then
    ⟨0, false, st.timers.filter (fun t => now < t)⟩
  else st

/-- Model of HttpService.handleRequestError for the fixed URL (httpService.js
lines 176-200): increment the fail count; at 3 or more failures add the URL
to blockedUrls and schedule an unblock timer 5 minutes later. -/
def handleRequestError (st : CircuitState) (now : Nat) : CircuitState :=
  let fc := st.failCount + 1
  if 3 ≤ fc then ⟨fc, true, st.timers ++ [now + 5 * 60 * 1000]⟩
  else ⟨fc, st.blocked, st.timers⟩

/-- Result of one fetchHtml call, as surfaced to the caller. -/
inductive FetchResult where
  | ok
  | errBlocked
  | errHttp (status : Option Nat)
deriving DecidableEq

/-- Observable effects of one HttpService.fetchHtml call: its result, the
circuit state afterwards, the number of network attempts issued, and whether
this.rateLimit() was invoked. -/
structure StepResult where
  result : FetchResult
  state : CircuitState
  networkAttempts : Nat
  rateLimited : Bool
deriving DecidableEq

/-- Model of HttpService.fetchHtml (httpService.js lines 59-102) for the
fixed URL at time now. Due timers fire first. If the URL is blocked, the call
throws the temporarily-blocked HttpError before rateLimit or any axios.get;
the catch block still routes this error through handleRequestError. Otherwise
rateLimit is awaited and the retry loop runs; on success the fail count entry
is deleted, on failure handleRequestError is applied. -/
def fetchHtmlStep (st : CircuitState) (now : Nat) (oracle : Nat → AttemptOutcome) :
    StepResult :=
  let st1 := fireTimers st now
  if st1.blocked then
    ⟨.errBlocked, handleRequestError st1 now, 0, false⟩
  else
    let r := makeRequestWithRetry oracle
    if r.ok then ⟨.ok, ⟨0, st1.blocked, st1.timers⟩, r.attempts, true⟩
    else ⟨.errHttp (r.errStatus.getD none), handleRequestError st1 now, r.attempts, true⟩

/-- Run a sequence of fetchHtml calls, each given as a pair of call time and
attempt oracle, threading the circuit state and collecting each call result. -/
def runCalls (st : CircuitState) : List (Nat × (Nat → AttemptOutcome)) →
    CircuitState × List StepResult
  | [] => (st, [])
  | (t, o) :: rest =>
    let r := fetchHtmlStep st t o
    let p := runCalls r.state rest
    (p.1, r :: p.2)

/-- Fresh circuit state for a URL never seen before: no fail count entry, not
blocked, no pending timers. -/
def freshCircuit : CircuitState := ⟨0, false, []⟩

/- ===================== Generic character and list helpers ================ -/

/-- Characters that end the authority component of a URL. -/
def authStop (c : Char) : Bool := c = '/' ∨ c = '?' ∨ c = '#'

/-- Split a character list at the first authority-ending character: returns
the consumed part and the remainder, which is empty or starts with a stop
character. -/
def spanAuth : List Char → List Char × List Char
  | [] => ([], [])
  | c :: rest =>
    if authStop c then ([], c :: rest)
    else
      let p := spanAuth rest
      (c :: p.1, p.2)

/-- Split a character list at the first colon: returns the part before it and
the remainder, which is empty or starts with a colon. -/
def spanColon : List Char → List Char × List Char
  | [] => ([], [])
  | c :: rest =>
    if c = ':' then ([], c :: rest)
    else
      let p := spanColon rest
      (c :: p.1, p.2)

/-- Split a character list at the first question mark or hash: the path part
of a URL and the remainder. -/
def spanPath : List Char → List Char × List Char
  | [] => ([], [])
  | c :: rest =>
    if c = '?' ∨ c = '#' then ([], c :: rest)
    else
      let p := spanPath rest
      (c :: p.1, p.2)

/-- Boolean substring test: does the needle occur contiguously in the
haystack? Models the JavaScript String.prototype.includes. -/
def containsSub (needle : List Char) : List Char → Bool
  | [] => needle.isEmpty
  | c :: rest => needle.isPrefixOf (c :: rest) || containsSub needle rest

/-- Replace the first occurrence of pat by repl, as the JavaScript
String.prototype.replace does for a string pattern. -/
def replaceFirst (pat repl : List Char) : List Char → List Char
  | [] => []
  | c :: rest =>
    if pat.isPrefixOf (c :: rest) then repl ++ (c :: rest).drop pat.length
    else c :: replaceFirst pat repl rest

/-- Remove one trailing slash if present: the effect of the JavaScript
replace(/regex for one trailing slash/, empty string). -/
def stripTrailingSlash (l : List Char) : List Char :=
  if l.getLast? = some '/' then l.dropLast else l

/- ===================== URL model (WHATWG new URL, restricted) ============ -/

/-- Parsed URL record, modelling the component view that the Node URL class
exposes. The port is kept as its digit characters; a port equal to the scheme
default is elided as the URL class does. The query and fragment are stored
without their leading marker characters; empty means absent. -/
structure URLRec where
  scheme : List Char
  host : List Char
  port : Option (List Char)
  path : List Char
  query : List Char
  fragment : List Char
deriving DecidableEq

/-- Split off the scheme at the first colon-slash-slash. Inputs whose scheme
is followed by a bare colon are rejected in this model. -/
def splitScheme : List Char → Option (List Char × List Char)
  | [] => none
  | c :: rest =>
    if c = ':' then
      match rest with
      | '/' :: '/' :: r => some ([], r)
      | _ => none
    else (splitScheme rest).map (fun p => (c :: p.1, p.2))

/-- Is the digit list the default port for the scheme (80 for http, 443 for
https)? The URL class elides default ports from host and href. -/
def isDefaultPort (scheme ds : List Char) : Bool :=
  (scheme = ['h', 't', 't', 'p'] ∧ ds = ['8', '0']) ∨
  (scheme = ['h', 't', 't', 'p', 's'] ∧ ds = ['4', '4', '3'])

/-- Parse the optional port part of an authority. Empty or a lone colon means
no port; otherwise the digits after the colon, with default ports elided.
Model restrictions versus the URL class: a non-digit or leading-zero port is
rejected instead of canonicalized. -/
def parsePort (scheme : List Char) : List Char → Option (Option (List Char))
  | [] => some none
  | c :: ds =>
    if c = ':' then
      if ds = [] then some none
      else if ds.all Char.isDigit ∧ (ds.head? = some '0' → ds = ['0']) then
        if isDefaultPort scheme ds then some none else some (some ds)
      else none
    else none

/-- Model of the WHATWG URL parser (the Node new URL constructor) restricted
to the shapes this repository feeds it: an absolute http(s)-style URL written
scheme colon-slash-slash authority path query fragment. The scheme and host
are lowercased; a URL with userinfo, brackets (IPv6 literal) or an invalid
port is rejected by the model; the empty path of a special-scheme URL reads
back as a single slash, as the pathname getter reports. Percent-encoding and
dot-segment normalization are outside the model. This part handles the
authority: it rejects userinfo and bracket characters, splits host and port
at the colon, and lowercases the host. -/
def parseAuthority (scheme auth : List Char) : Option (List Char × Option (List Char)) :=
  if auth.any (fun c => c = '@' ∨ c = '[' ∨ c = ']') then none
  else
    let hp := spanColon auth
    if hp.1 = [] then none
    else
      match parsePort scheme hp.2 with
      | none => none
      | some port => some (hp.1.map Char.toLower, port)

/-- Top level of the model URL parser: scheme validation and lowercasing,
authority via parseAuthority, then path, query and fragment. -/
def parseURL (l : List Char) : Option URLRec :=
  match splitScheme l with
  | none => none
  | some (schemeRaw, rest) =>
    if schemeRaw ≠ [] ∧ schemeRaw.all Char.isAlpha then
      let scheme := schemeRaw.map Char.toLower
      let a := spanAuth rest
      match parseAuthority scheme a.1 with
      | none => none
      | some (host, port) =>
        let pq := spanPath a.2
        let path := if pq.1 = [] then ['/'] else pq.1
        match pq.2 with
        | [] => some ⟨scheme, host, port, path, [], []⟩
        | '?' :: r2 =>
          let qf := spanPath r2
          match qf.2 with
          | [] => some ⟨scheme, host, port, path, qf.1, []⟩
          | '#' :: fr => some ⟨scheme, host, port, path, qf.1, fr⟩
          | _ => none
        | '#' :: fr => some ⟨scheme, host, port, path, [], fr⟩
        | _ => none
    else none

/-- Serialized form of the optional port: empty, or a colon and the digits. -/
def portChars : Option (List Char) → List Char
  | none => []
  | some ds => ':' :: ds

/-- Origin of a parsed URL as the origin getter reports it for http(s) URLs:
scheme, separator, host and any non-default port. -/
def originChars (u : URLRec) : List Char :=
  u.scheme ++ [':', '/', '/'] ++ u.host ++ portChars u.port

/-- Serialization of a parsed URL: the href that the toString method of the
URL class produces. -/
def serializeURL (u : URLRec) : List Char :=
  originChars u ++ u.path ++
    (if u.query = [] then [] else '?' :: u.query) ++
    (if u.fragment = [] then [] else '#' :: u.fragment)

/-- Characters that may not occur in the host component of the model
parser: authority and path delimiters, the userinfo marker and IPv6
brackets. -/
def badHostChar (c : Char) : Bool :=
  authStop c || c = ':' || c = '@' || c = '[' || c = ']'

/-- Well-formedness invariant of parsed URL records: exactly the shapes the
model parser produces, under which serialization followed by parsing is the
identity. -/
structure WFURL (u : URLRec) : Prop where
  scheme_ne : u.scheme ≠ []
  scheme_lower : ∀ c ∈ u.scheme, c.isLower = true
  host_ne : u.host ≠ []
  host_ok : ∀ c ∈ u.host, c.isUpper = false ∧ badHostChar c = false
  port_ok : ∀ ds, u.port = some ds →
    ds ≠ [] ∧ (∀ c ∈ ds, c.isDigit = true) ∧ (ds.head? = some '0' → ds = ['0']) ∧
    isDefaultPort u.scheme ds = false
  path_ne : u.path ≠ []
  path_head : u.path.head? = some '/'
  path_ok : ∀ c ∈ u.path, c ≠ '?' ∧ c ≠ '#'

/-- The lowercase hexadecimal digit alphabet of a Node crypto hex digest. -/
def hexDigits : List Char := "0123456789abcdef".data

/-- The pathname rewrite of FeedService.validateAndNormalizeUrl: one trailing
slash stripped, an emptied path refilled with the root slash. -/
def cleanPath (p : List Char) : List Char :=
  let q := stripTrailingSlash p
  if q = [] then ['/'] else q

/-- Model of FeedService.validateAndNormalizeUrl (feedService.js lines
327-352): parse the URL, require an http or https protocol, strip one
trailing slash from the pathname refilling a root slash, clear search and
hash, and serialize. Returns none where the source throws ValidationError. -/
def validateAndNormalizeUrl (s : String) : Option String :=
  match parseURL s.data with
  | none => none
  | some u =>
    if u.scheme = ['h', 't', 't', 'p'] ∨ u.scheme = ['h', 't', 't', 'p', 's'] then
      some ⟨serializeURL ⟨u.scheme, u.host, u.port, cleanPath u.path, [], []⟩⟩
    else none

/-- Model of AdvancedRSSDetector.normalizeUrl (advancedRSSDetector.js lines
121-129): origin plus pathname with one trailing slash stripped from the
concatenation; the original string is returned when parsing throws. The
fallback to origin for an empty result is unreachable since the origin is
never empty. -/
def detNormalizeUrl (s : String) : String :=
  match parseURL s.data with
  | none => s
  | some u => ⟨stripTrailingSlash (originChars u ++ u.path)⟩

/-- Model of extractDomain (src/utils/helpers.js lines 27-35): hostname of
the parsed URL with the first occurrence of the text w-w-w-dot removed; null
on a parse failure. -/
def extractDomain (s : String) : Option (List Char) :=
  (parseURL s.data).map (fun u => replaceFirst ['w', 'w', 'w', '.'] [] u.host)

/-- Domain as it is interpolated into a cache-key template literal: the
JavaScript null prints as the four letters n-u-l-l. -/
def extractDomainS (s : String) : String :=
  match extractDomain s with
  | some d => ⟨d⟩
  | none => "null"

/- ===================== Base64 and JSON fragments (Buffer, JSON) ========== -/

/-- UTF-8 encoding of one character as byte values, as Buffer.from produces
for a JavaScript string. -/
def utf8Char (c : Char) : List Nat :=
  let n := c.toNat
  if n < 0x80 then [n]
  else if n < 0x800 then [0xC0 + n / 0x40, 0x80 + n % 0x40]
  else if n < 0x10000 then
    [0xE0 + n / 0x1000, 0x80 + n / 0x40 % 0x40, 0x80 + n % 0x40]
  else
    [0xF0 + n / 0x40000, 0x80 + n / 0x1000 % 0x40, 0x80 + n / 0x40 % 0x40,
     0x80 + n % 0x40]

/-- UTF-8 bytes of a character list. -/
def utf8Bytes (l : List Char) : List Nat := l.flatMap utf8Char

/-- The base64 alphabet. -/
def base64Alphabet : List Char :=
  "ABCDEFGHIJKLMNOPQRSTUVWXYZabcdefghijklmnopqrstuvwxyz0123456789+/".data

/-- Character for a 6-bit value. -/
def b64c (n : Nat) : Char := base64Alphabet.getD n 'A'

/-- Standard base64 encoding with padding of a byte list, as the Buffer
toString with base64 encoding produces. -/
def base64Encode : List Nat → List Char
  | [] => []
  | [b1] => [b64c (b1 / 4), b64c (b1 % 4 * 16), '=', '=']
  | [b1, b2] => [b64c (b1 / 4), b64c (b1 % 4 * 16 + b2 / 16), b64c (b2 % 16 * 4), '=']
  | b1 :: b2 :: b3 :: rest =>
    b64c (b1 / 4) :: b64c (b1 % 4 * 16 + b2 / 16) ::
      b64c (b2 % 16 * 4 + b3 / 64) :: b64c (b3 % 64) :: base64Encode rest

/-- Base64 of the UTF-8 bytes of a string, as Buffer.from(s).toString with
base64 encoding computes. -/
def base64OfString (s : String) : List Char := base64Encode (utf8Bytes s.data)

/-- Feed options as passed through the service layer. The three canonical
fields mirror the properties that hashOptions reads; extra collects any other
option fields (keyword, date filters, image URL and so on) irrelevant to the
cache key. -/
structure FeedOptions where
  title : Option String
  description : Option String
  limit : Option Nat
  keyword : Option String := none
  dateFrom : Option Int := none
  dateTo : Option Int := none
  extra : List (String × String) := []
deriving DecidableEq

/-- The empty options object, as a request without title, description or
limit produces. -/
def noOptions : FeedOptions :=
  { title := none, description := none, limit := none }

/-- JSON string literal with the escaping JSON.stringify applies to quotes
and backslashes; other characters of the values used here need no escaping. -/
def jsonString (s : String) : List Char :=
  '"' :: (s.data.flatMap (fun c =>
    if c = '"' then ['\\', '"']
    else if c = '\\' then ['\\', '\\']
    else [c])) ++ ['"']

/-- Decimal digits of a natural number, for the JSON serialization of the
limit option. -/
def natChars (n : Nat) : List Char := Nat.toDigits 10 n

/-- JSON.stringify of the relevantOptions object built by
FeedService.hashOptions (feedService.js lines 410-419): keys in source order
title, description, limit; properties whose value is undefined are dropped by
JSON.stringify; any other option fields are never read. -/
def stringifyRelevantOptions (o : FeedOptions) : List Char :=
  let fs :=
    (match o.title with
     | some v => [jsonString "title" ++ [':'] ++ jsonString v]
     | none => []) ++
    (match o.description with
     | some v => [jsonString "description" ++ [':'] ++ jsonString v]
     | none => []) ++
    (match o.limit with
     | some v => [jsonString "limit" ++ [':'] ++ natChars v]
     | none => [])
  "\x7b".data ++ List.intercalate [','] fs ++ "\x7d".data

/-- Model of FeedService.hashOptions (feedService.js lines 410-419): first 8
characters of the base64 of the JSON serialization of the canonical options. -/
def hashOptions (o : FeedOptions) : List Char :=
  (base64Encode (utf8Bytes (stringifyRelevantOptions o))).take 8

/-- Model of FeedService.getCacheKey (feedService.js lines 397-403): the
template literal feed underscore domain underscore urlHash underscore
optionsHash, where urlHash is the first 10 characters of the base64 of the
URL and domain comes from extractDomain, a JavaScript null printing as the
word null. -/
def getCacheKey (url : String) (o : FeedOptions) : String :=
  ⟨"feed_".data ++ (extractDomainS url).data ++ "_".data ++
    (base64OfString url).take 10 ++ "_".data ++ hashOptions o⟩

/-- Model of the URL branch of FeedService.clearCache (feedService.js lines
426-459): normalize the URL (none models the thrown CacheError when
validation fails), then delete every feedCache entry whose key contains the
substring feed underscore domain underscore. The cacheTimestamps map mirrors
the feedCache keys and is cleared alongside; the model carries the feed
cache as an association list from keys to stored XML. -/
def clearCacheByUrl (cache : List (String × String)) (url : String) :
    Option (List (String × String)) :=
  match validateAndNormalizeUrl url with
  | none => none
  | some nurl =>
    let sub := "feed_".data ++ (extractDomainS nurl).data ++ "_".data
    some (cache.filter (fun kv => !(containsSub sub kv.1.data)))

/- ============ AdvancedRSSDetector (src/services/advancedRSSDetector.js) == -/

/-- The five active detection strategies, in the priority order of the
strategies array of findRSSFeed (advancedRSSDetector.js lines 71-78). -/
inductive Strategy where
  | htmlHead
  | domainRules
  | urlPattern
  | commonPaths
  | wordpress
deriving DecidableEq

/-- Strategy priority order as listed in findRSSFeed. -/
def strategyOrder : List Strategy :=
  [.htmlHead, .domainRules, .urlPattern, .commonPaths, .wordpress]

/-- Detector caches: the rssCache map from normalized page URL to detected
feed URL and insertion timestamp, and the failed-URL set. Entries of the
failed set expire via a 10-minute setTimeout not modelled here; the claims
below only use membership during the validity window. -/
structure DetectorState where
  rssCache : List (String × String × Nat)
  failedUrls : List String
deriving DecidableEq

/-- Model of AdvancedRSSDetector.getCachedRSS (advancedRSSDetector.js lines
452-463): normalize the key, return a hit younger than one hour, delete an
expired entry. -/
def getCachedRSS (st : DetectorState) (now : Nat) (url : String) :
    Option String × DetectorState :=
  let n := detNormalizeUrl url
  match st.rssCache.lookup n with
  | some (r, ts) =>
    if now - ts < 3600000 then (some r, st)
    else (none, ⟨st.rssCache.filter (fun e => e.1 ≠ n), st.failedUrls⟩)
  | none => (none, st)

/-- Model of AdvancedRSSDetector.cacheRSSUrl (advancedRSSDetector.js lines
465-471): store the mapping under the re-normalized URL; Map.set replaces an
existing entry. -/
def cacheRSSUrl (st : DetectorState) (url rssUrl : String) (now : Nat) :
    DetectorState :=
  let n := detNormalizeUrl url
  ⟨(n, rssUrl, now) :: st.rssCache.filter (fun e => e.1 ≠ n), st.failedUrls⟩

/-- Model of AdvancedRSSDetector.markAsFailed (advancedRSSDetector.js lines
480-487): add the URL to the failed-URL set. -/
def markAsFailed (st : DetectorState) (url : String) : DetectorState :=
  ⟨st.rssCache, url :: st.failedUrls⟩

/-- Walk the strategy list in order, as the for-loop of findRSSFeed does: the
oracle gives each strategy result, where none covers both a null return and a
thrown error (the catch block continues with the next strategy). Returns the
first hit with the list of strategies actually invoked. -/
def tryStrategies (oracle : Strategy → Option String) :
    List Strategy → Option (Strategy × String) × List Strategy
  | [] => (none, [])
  | s :: rest =>
    match oracle s with
    | some r => (some (s, r), [s])
    | none =>
      let p := tryStrategies oracle rest
      (p.1, s :: p.2)

/-- Model of AdvancedRSSDetector.findRSSFeed (advancedRSSDetector.js lines
47-116): normalize the URL, consult the one-hour cache, short-circuit on a
recently failed URL, then run the strategies in priority order with early
exit, caching a success and recording a complete miss as failed. Returns the
result, the detector state afterwards and the strategies invoked. -/
def findRSSFeed (st : DetectorState) (now : Nat) (url : String)
    (oracle : Strategy → Option String) :
    Option String × DetectorState × List Strategy :=
  let nurl := detNormalizeUrl url
  let c := getCachedRSS st now nurl
  match c.1 with
  | some r => (some r, c.2, [])
  | none =>
    if c.2.failedUrls.contains nurl then (none, c.2, [])
    else
      let t := tryStrategies oracle strategyOrder
      match t.1 with
      | some p => (some p.2, cacheRSSUrl c.2 nurl p.2 now, t.2)
      | none => (none, markAsFailed c.2 nurl, t.2)

/-- Lowercasing of a string as the JavaScript toLowerCase does on the ASCII
range, which covers the markers the detector looks for. -/
def lowerString (s : String) : String := ⟨s.data.map Char.toLower⟩

/-- The validity test of AdvancedRSSDetector.validateRSSUrl (lines 386-392):
the lowercased content contains one of the five feed markers. -/
def rssMarker (s : String) : Bool :=
  containsSub ("<rss".data) s.data ||
  containsSub ("<feed".data) s.data ||
  containsSub ("<channel>".data) s.data ||
  containsSub ("xmlns=\"http://www.w3.org/2005/atom\"".data) s.data ||
  containsSub ("xmlns:atom=".data) s.data

/-- Model of AdvancedRSSDetector.validateRSSUrl (advancedRSSDetector.js lines
372-403): skip recently failed URLs; fetched is the safeFetchHtml result,
none meaning a failed fetch. A missing or short body or a body without a
feed marker marks the URL failed and rejects it. Returns the verdict and the
failed-URL set afterwards. -/
def validateRSSUrl (failed : List String) (url : String)
    (fetched : Option String) : Bool × List String :=
  if failed.contains url then (false, failed)
  else
    match fetched with
    | none => (false, url :: failed)
    | some body =>
      if body.length < 50 then (false, url :: failed)
      else if rssMarker (lowerString body) then (true, failed)
      else (false, url :: failed)

/- ======= ContentParserService (src/services/contentParserService.js) ===== -/

/-- Article record as assembled by extractArticleData: the fields the
validation, deduplication, sorting and limiting steps read. publishedDate is
the extracted Date as milliseconds since the epoch. -/
structure Article where
  title : String
  url : String
  description : String
  publishedDate : Int
deriving DecidableEq

/-- Model of ContentParserService.validateArticle (scraperService.js bundle,
contentParserService lines 943-952): the article needs a truthy title longer
than 10 characters, a truthy url and a truthy description longer than 20
characters. -/
def validateArticle (a : Article) : Bool :=
  a.title ≠ "" ∧ 10 < a.title.length ∧ a.url ≠ "" ∧
    a.description ≠ "" ∧ 20 < a.description.length

/-- The collection loop of ContentParserService.parseArticles (lines
649-664): keep candidates that validate and whose url was not seen before. -/
def collectValid : List Article → List String → List Article
  | [], _ => []
  | a :: rest, seen =>
    if validateArticle a ∧ ¬ seen.contains a.url then
      a :: collectValid rest (a.url :: seen)
    else collectValid rest seen

/-- Descending comparison on publication dates: the sort comparator
(b.publishedDate minus a.publishedDate) orders newest first. -/
def newerFirst (a b : Article) : Prop := b.publishedDate ≤ a.publishedDate

instance : DecidableRel newerFirst := fun a b =>
  inferInstanceAs (Decidable (b.publishedDate ≤ a.publishedDate))

instance : IsTotal Article newerFirst :=
  ⟨fun a b => le_total b.publishedDate a.publishedDate⟩

instance : IsTrans Article newerFirst :=
  ⟨fun _ _ _ h1 h2 => le_trans h2 h1⟩

/-- Model of ContentParserService.sortAndLimitArticles (lines 957-961): a
stable sort newest first, truncated to the configured maximum article count.
The JavaScript Array sort is stable; a stable insertion sort models it. -/
def sortAndLimitArticles (maxArticles : Nat) (articles : List Article) :
    List Article :=
  (articles.insertionSort newerFirst).take maxArticles

/-- Model of the article-assembly phase of ContentParserService.parseArticles
(lines 632-679), starting from the candidate records that extractArticleData
produced for the selected DOM elements; the cheerio selector traversal that
yields the candidates is outside the model. none models the NoArticlesError
thrown when no valid article remains. maxArticles is
config.app.maxArticlesPerFeed, default 20. -/
def parseArticles (maxArticles : Nat) (candidates : List Article) :
    Option (List Article) :=
  let arts := collectValid candidates []
  if arts = [] then none else some (sortAndLimitArticles maxArticles arts)

/- ============= ScraperService (src/services/scraperService.js) =========== -/

/-- Model of ScraperService.applyFilters (scraperService.js lines 393-428):
keyword filter on title or description, date range filter, then slice to the
limit when it is a truthy positive number. -/
def applyFilters (articles : List Article) (o : FeedOptions) : List Article :=
  let f1 :=
    match o.keyword with
    | some k =>
      articles.filter (fun a =>
        containsSub (lowerString k).data (lowerString a.title).data ||
        containsSub (lowerString k).data (lowerString a.description).data)
    | none => articles
  let f2 :=
    if o.dateFrom.isSome ∨ o.dateTo.isSome then
      f1.filter (fun a =>
        (match o.dateFrom with
         | some d => !(a.publishedDate < d)
         | none => true) &&
        (match o.dateTo with
         | some d => !(d < a.publishedDate)
         | none => true))
    else f1
  match o.limit with
  | some l => if 0 < l then f2.take l else f2
  | none => f2

/-- Oracles abstracting the network and parsing collaborators that one
ScraperService.extractArticles call consults: the detector verdict for the
page URL, the RSS fetch per feed URL, the xml2js parse, the page HTML fetch
and the content parser. none models a thrown error. -/
structure ScraperOracles where
  findRSS : Option String
  fetchRSS : String → Option String
  parseRSS : String → Option (List Article)
  fetchPage : Option String
  parsePage : Option (List Article)

/-- Model of ScraperService.fetchRSSContent (scraperService.js lines
196-221): a missing or sub-100-character body and a body with neither an rss
nor a feed opening tag raise a ScrapingError. -/
def fetchRSSContent (fetched : Option String) : Option String :=
  match fetched with
  | none => none
  | some c =>
    if c.length < 100 then none
    else if !(containsSub ("<rss".data) c.data || containsSub ("<feed".data) c.data) then
      none
    else some c

/-- Outcome of one ScraperService.extractArticles call: articles obtained
from an existing RSS feed, articles scraped from the page HTML, or a thrown
error surfaced to the caller. -/
inductive ExtractOutcome where
  | fromRSS (articles : List Article)
  | fromHTML (articles : List Article)
  | error
deriving DecidableEq

/-- Model of ScraperService.extractArticles (scraperService.js lines 39-91).
findExistingRSSFeed never throws, so its verdict is the detector result. When
a feed URL is found, the RSS content is fetched and parsed and the filtered
articles are returned; an error thrown by fetchRSSContent or parseRSSFeed is
re-thrown by the outer catch block, with no fallback to HTML scraping. Only
when no feed URL was found does the call fetch the page HTML and parse it,
where ScraperService.parseArticles applies the filters once and
extractArticles applies them again. -/
def extractArticles (o : ScraperOracles) (opts : FeedOptions) : ExtractOutcome :=
  match o.findRSS with
  | some rssUrl =>
    match fetchRSSContent (o.fetchRSS rssUrl) with
    | none => .error
    | some content =>
      match o.parseRSS content with
      | none => .error
      | some articles => .fromRSS (applyFilters articles opts)
  | none =>
    match o.fetchPage with
    | none => .error
    | some _ =>
      match o.parsePage with
      | none => .error
      | some articles => .fromHTML (applyFilters (applyFilters articles opts) opts)

/- ================ ValidationService (src/validators/index.js) ============ -/

/-- The blockedPatterns list of ValidationService.validateUrl
(validators/index.js lines 170-176), matched by substring inclusion against
the hostname. -/
def blockedHostPatterns : List String :=
  ["localhost", "127.0.0.1", "0.0.0.0", "::1", "local"]

/-- The regex for the 172.16.0.0/12 range anchored at the start of the
hostname: 172 dot, then 16-19 or 2 followed by a digit or 30-31, then dot. -/
def is172PrivateStart : List Char → Bool
  | '1' :: '7' :: '2' :: '.' :: a :: b :: '.' :: _ =>
    (a = '1' ∧ '6' ≤ b ∧ b ≤ '9') ∨ (a = '2' ∧ b.isDigit) ∨
      (a = '3' ∧ (b = '0' ∨ b = '1'))
  | _ => false

/-- Lowercase hex digit class of the unique-local address regexes. -/
def isHexLower (c : Char) : Bool := c.isDigit ∨ ('a' ≤ c ∧ c ≤ 'f')

/-- The fc00 and fd00 unique-local regexes anchored at the hostname start. -/
def isUniqueLocalStart : List Char → Bool
  | 'f' :: x :: a :: b :: ':' :: _ =>
    (x = 'c' ∨ x = 'd') ∧ isHexLower a ∧ isHexLower b
  | _ => false

/-- Model of ValidationService.isPrivateIP (validators/index.js lines
233-271): the IPv4 private-range regexes and the IPv6 regexes, all anchored
at the start of the hostname string exactly as the source regexes are. -/
def isPrivateIP (hostname : String) : Bool :=
  ("10.".data).isPrefixOf hostname.data ||
  is172PrivateStart hostname.data ||
  ("192.168.".data).isPrefixOf hostname.data ||
  hostname.data = "::1".data ||
  isUniqueLocalStart hostname.data ||
  ("fe80:".data).isPrefixOf hostname.data

/-- Model of ValidationService.isSuspiciousPort (validators/index.js lines
276-295). -/
def isSuspiciousPort (p : Nat) : Bool :=
  ([22, 23, 25, 53, 110, 143, 993, 995, 1433, 3306, 5432, 6379, 27017] :
    List Nat).contains p

/-- Model of ValidationService.validateUrl (validators/index.js lines
134-227) from the point where new URL succeeded, taking the component view
the URL object exposes: protocol with its trailing colon, hostname, and the
port property as a number when the URL carries an explicit non-default port.
Note that for an IPv6 literal the WHATWG hostname getter returns the address
in square brackets, for example the string bracket fe80 colon colon 2
bracket. Returns the isValid verdict. -/
def validateUrl (protocol hostname : String) (port : Option Nat) : Bool :=
  if !(protocol = "http:" ∨ protocol = "https:") then false
  else
    let h := lowerString hostname
    if blockedHostPatterns.any (fun p => containsSub p.data h.data) then false
    else if isPrivateIP h then false
    else if h.length = 0 then false
    else
      match port with
      | some p => !isSuspiciousPort p
      | none => true

/- ===================== Helper lemmas ===================================== -/

set_option maxRecDepth 100000

theorem retryAux_attempts_le (oracle : Nat → AttemptOutcome) :
    ∀ rem att, (retryAux oracle att rem).attempts ≤ rem := by
  intro rem
  induction rem with
  | zero => intro att; simp [retryAux]
  | succ n ih =>
    intro att
    simp only [retryAux]
    cases oracle att with
    | ok => simp
    | err st =>
      by_cases h1 : shouldNotRetry st
      · simp [h1]
      · by_cases h2 : n = 0
        · simp [h1, h2]
        · simpa [h1, h2] using ih (att + 1)

theorem retryAux_attempts_pos (oracle : Nat → AttemptOutcome) :
    ∀ rem att, 1 ≤ rem → 1 ≤ (retryAux oracle att rem).attempts := by
  intro rem att h
  match rem, h with
  | n + 1, _ =>
    simp only [retryAux]
    cases oracle att with
    | ok => simp
    | err st =>
      by_cases h1 : shouldNotRetry st
      · simp [h1]
      · by_cases h2 : n = 0
        · simp [h1, h2]
        · simp [h1, h2]

theorem retryAux_delays_eq (oracle : Nat → AttemptOutcome) :
    ∀ rem att, 1 ≤ att →
      (retryAux oracle att rem).delays =
        (List.range ((retryAux oracle att rem).attempts - 1)).map
          (fun i => min (1000 * 2 ^ (att - 1 + i)) 5000) := by
  intro rem
  induction rem with
  | zero => intro att _; simp [retryAux]
  | succ n ih =>
    intro att hatt
    simp only [retryAux]
    cases oracle att with
    | ok => simp
    | err st =>
      by_cases h1 : shouldNotRetry st
      · simp [h1]
      · by_cases h2 : n = 0
        · simp [h1, h2]
        · have hpos : 1 ≤ (retryAux oracle (att + 1) n).attempts :=
            retryAux_attempts_pos oracle n (att + 1) (Nat.one_le_iff_ne_zero.mpr h2)
          have hrec := ih (att + 1) (by omega)
          simp only [h1, h2, if_false, Bool.false_eq_true, Nat.add_sub_cancel]
          rw [hrec]
          obtain ⟨m, hm⟩ : ∃ m, (retryAux oracle (att + 1) n).attempts = m + 1 :=
            ⟨(retryAux oracle (att + 1) n).attempts - 1, by omega⟩
          rw [hm]
          rw [List.range_succ_eq_map]
          simp only [List.map_cons, List.map_map, Nat.add_sub_cancel]
          congr 1
          apply List.map_congr_left
          intro i _
          simp [Function.comp, show att - 1 + (i + 1) = att + i from by omega]

theorem retryAux_step_retryable (oracle : Nat → AttemptOutcome) (att n : Nat)
    (st : Option Nat) (ho : oracle att = .err st) (hr : shouldNotRetry st = false)
    (hn : n ≠ 0) :
    retryAux oracle att (n + 1) =
      ⟨(retryAux oracle (att + 1) n).ok, (retryAux oracle (att + 1) n).errStatus,
        (retryAux oracle (att + 1) n).attempts + 1,
        min (1000 * 2 ^ (att - 1)) 5000 :: (retryAux oracle (att + 1) n).delays⟩ := by
  simp [retryAux, ho, hr, hn]

/-- C2: every fetchHtml call makes at most 3 HTTP attempts; the wait after
failed attempt n is min(1000 * 2 ^ (n - 1), 5000) ms, that is min(1000 * 2 ^ i, 5000)
for the i-th recorded delay; a response status among 400, 401, 403, 404, 405,
406, 410, 451 stops the loop at that attempt and raises the error
immediately; 5xx statuses and network errors are retried while attempts
remain. -/
theorem retry_policy_spec :
    (∀ oracle, (makeRequestWithRetry oracle).attempts ≤ 3) ∧
    (∀ oracle, (makeRequestWithRetry oracle).delays =
      (List.range ((makeRequestWithRetry oracle).attempts - 1)).map
        (fun n => min (1000 * 2 ^ n) 5000)) ∧
    (∀ oracle n s, 1 ≤ n → n ≤ 3 →
      (∀ m, 1 ≤ m → m < n → retryableFail (oracle m) = true) →
      oracle n = .err (some s) → s ∈ noRetryStatuses →
      makeRequestWithRetry oracle =
        ⟨false, some (some s), n,
          (List.range (n - 1)).map (fun i => min (1000 * 2 ^ i) 5000)⟩) ∧
    (∀ oracle n, 1 ≤ n → n < 3 →
      (∀ m, 1 ≤ m → m ≤ n → retryableFail (oracle m) = true) →
      n + 1 ≤ (makeRequestWithRetry oracle).attempts) ∧
    (∀ s, 500 ≤ s → shouldNotRetry (some s) = false) ∧
    shouldNotRetry none = false := by
  refine ⟨?_, ?_, ?_, ?_, ?_, rfl⟩
  · intro oracle
    exact retryAux_attempts_le oracle 3 1
  · intro oracle
    simpa using retryAux_delays_eq oracle 3 1 le_rfl
  · intro oracle n s hn1 hn3 hpre ho hs
    have hsn : shouldNotRetry (some s) = true := by simp [shouldNotRetry, hs]
    interval_cases n
    · simp [makeRequestWithRetry, maxRetries, retryAux, ho, hsn]
    · obtain ⟨st1, ho1, hr1⟩ : ∃ st1, oracle 1 = .err st1 ∧ shouldNotRetry st1 = false := by
        have h1f := hpre 1 le_rfl (by omega)
        cases hc : oracle 1 with
        | ok => rw [hc] at h1f; simp [retryableFail] at h1f
        | err st => rw [hc] at h1f; exact ⟨st, rfl, by simpa [retryableFail] using h1f⟩
      simp [makeRequestWithRetry, maxRetries, retryAux, ho1, hr1, ho, hsn, List.range_succ]
    · obtain ⟨st1, ho1, hr1⟩ : ∃ st1, oracle 1 = .err st1 ∧ shouldNotRetry st1 = false := by
        have h1f := hpre 1 le_rfl (by omega)
        cases hc : oracle 1 with
        | ok => rw [hc] at h1f; simp [retryableFail] at h1f
        | err st => rw [hc] at h1f; exact ⟨st, rfl, by simpa [retryableFail] using h1f⟩
      obtain ⟨st2, ho2, hr2⟩ : ∃ st2, oracle 2 = .err st2 ∧ shouldNotRetry st2 = false := by
        have h2f := hpre 2 (by omega) (by omega)
        cases hc : oracle 2 with
        | ok => rw [hc] at h2f; simp [retryableFail] at h2f
        | err st => rw [hc] at h2f; exact ⟨st, rfl, by simpa [retryableFail] using h2f⟩
      simp [makeRequestWithRetry, maxRetries, retryAux, ho1, hr1, ho2, hr2, ho, hsn,
        List.range_succ]
  · intro oracle n hn1 hn3 hpre
    interval_cases n
    · obtain ⟨st1, ho1, hr1⟩ : ∃ st1, oracle 1 = .err st1 ∧ shouldNotRetry st1 = false := by
        have h1f := hpre 1 le_rfl le_rfl
        cases hc : oracle 1 with
        | ok => rw [hc] at h1f; simp [retryableFail] at h1f
        | err st => rw [hc] at h1f; exact ⟨st, rfl, by simpa [retryableFail] using h1f⟩
      have hpos := retryAux_attempts_pos oracle 2 2 (by omega)
      have hstep : retryAux oracle 1 3 =
          ⟨(retryAux oracle 2 2).ok, (retryAux oracle 2 2).errStatus,
            (retryAux oracle 2 2).attempts + 1,
            min (1000 * 2 ^ (1 - 1)) 5000 :: (retryAux oracle 2 2).delays⟩ :=
        retryAux_step_retryable oracle 1 2 st1 ho1 hr1 (by omega)
      simp only [makeRequestWithRetry, maxRetries, hstep]
      omega
    · obtain ⟨st1, ho1, hr1⟩ : ∃ st1, oracle 1 = .err st1 ∧ shouldNotRetry st1 = false := by
        have h1f := hpre 1 le_rfl (by omega)
        cases hc : oracle 1 with
        | ok => rw [hc] at h1f; simp [retryableFail] at h1f
        | err st => rw [hc] at h1f; exact ⟨st, rfl, by simpa [retryableFail] using h1f⟩
      obtain ⟨st2, ho2, hr2⟩ : ∃ st2, oracle 2 = .err st2 ∧ shouldNotRetry st2 = false := by
        have h2f := hpre 2 (by omega) le_rfl
        cases hc : oracle 2 with
        | ok => rw [hc] at h2f; simp [retryableFail] at h2f
        | err st => rw [hc] at h2f; exact ⟨st, rfl, by simpa [retryableFail] using h2f⟩
      have hpos := retryAux_attempts_pos oracle 1 3 (by omega)
      have hstep1 : retryAux oracle 1 3 =
          ⟨(retryAux oracle 2 2).ok, (retryAux oracle 2 2).errStatus,
            (retryAux oracle 2 2).attempts + 1,
            min (1000 * 2 ^ (1 - 1)) 5000 :: (retryAux oracle 2 2).delays⟩ :=
        retryAux_step_retryable oracle 1 2 st1 ho1 hr1 (by omega)
      have hstep2 : retryAux oracle 2 2 =
          ⟨(retryAux oracle 3 1).ok, (retryAux oracle 3 1).errStatus,
            (retryAux oracle 3 1).attempts + 1,
            min (1000 * 2 ^ (2 - 1)) 5000 :: (retryAux oracle 3 1).delays⟩ :=
        retryAux_step_retryable oracle 2 1 st2 ho2 hr2 (by omega)
      have hx : (makeRequestWithRetry oracle).attempts =
          (retryAux oracle 3 1).attempts + 1 + 1 := by
        rw [show makeRequestWithRetry oracle = retryAux oracle 1 3 from rfl, hstep1, hstep2]
      omega
  · intro s h
    simp [shouldNotRetry, noRetryStatuses]
    omega

theorem blocked_step (st : CircuitState) (e t : Nat) (o : Nat → AttemptOutcome)
    (hb : st.blocked = true) (ht : ∀ τ ∈ st.timers, e ≤ τ) (hlt : t < e)
    (hge : e ≤ t + 5 * 60 * 1000) :
    (fetchHtmlStep st t o).result = .errBlocked ∧
    (fetchHtmlStep st t o).networkAttempts = 0 ∧
    (fetchHtmlStep st t o).rateLimited = false ∧
    (fetchHtmlStep st t o).state.blocked = true ∧
    ∀ τ ∈ (fetchHtmlStep st t o).state.timers, e ≤ τ := by
  have hany : st.timers.any (fun τ => τ ≤ t) = false := by
    rw [List.any_eq_false]
    intro τ hτ
    have := ht τ hτ
    simp only [decide_eq_true_eq]
    omega
  have hfire : fireTimers st t = st := by
    unfold fireTimers
    rw [hany]
    simp
  have hmain : fetchHtmlStep st t o = ⟨.errBlocked, handleRequestError st t, 0, false⟩ := by
    simp only [fetchHtmlStep, hfire, hb, if_true]
  rw [hmain]
  refine ⟨rfl, rfl, rfl, ?_, ?_⟩
  · unfold handleRequestError
    by_cases hc : 3 ≤ st.failCount + 1
    · simp [hc]
    · simp [hc, hb]
  · unfold handleRequestError
    by_cases hc : 3 ≤ st.failCount + 1
    · simp only [hc, if_true]
      intro τ hτ
      rw [List.mem_append] at hτ
      rcases hτ with hτ | hτ
      · exact ht τ hτ
      · rw [List.mem_singleton] at hτ
        omega
    · simp only [hc, if_false]
      exact ht

theorem blocked_run (e : Nat) :
    ∀ (calls : List (Nat × (Nat → AttemptOutcome))) (st : CircuitState),
      st.blocked = true → (∀ τ ∈ st.timers, e ≤ τ) →
      (∀ p ∈ calls, p.1 < e ∧ e ≤ p.1 + 5 * 60 * 1000) →
      ∀ r ∈ (runCalls st calls).2,
        r.result = .errBlocked ∧ r.networkAttempts = 0 ∧ r.rateLimited = false := by
  intro calls
  induction calls with
  | nil => intro st _ _ _ r hr; simp [runCalls] at hr
  | cons c rest ih =>
    intro st hb ht hw r hr
    obtain ⟨t, o⟩ := c
    have hc := hw (t, o) (List.mem_cons_self _ _)
    have hstep := blocked_step st e t o hb ht hc.1 hc.2
    simp only [runCalls] at hr
    rw [List.mem_cons] at hr
    rcases hr with hr | hr
    · subst hr
      exact ⟨hstep.1, hstep.2.1, hstep.2.2.1⟩
    · exact ih (fetchHtmlStep st t o).state hstep.2.2.2.1 hstep.2.2.2.2
        (fun p hp => hw p (List.mem_cons_of_mem _ hp)) r hr

/-- C1: after 3 consecutive failed fetchHtml calls for a URL the circuit
breaker blocks it: the state holds fail count 3, the blocked flag and an
unblock timer 5 minutes past the third failure; every fetchHtml call during
that window returns the temporarily-blocked error with no network attempt and
no rateLimit invocation; and a fetchHtml call whose request succeeds resets
the fail counter of the URL. -/
theorem circuit_breaker_spec (t1 t2 t3 : Nat) (o1 o2 o3 : Nat → AttemptOutcome)
    (h1 : (makeRequestWithRetry o1).ok = false)
    (h2 : (makeRequestWithRetry o2).ok = false)
    (h3 : (makeRequestWithRetry o3).ok = false) :
    (runCalls freshCircuit [(t1, o1), (t2, o2), (t3, o3)]).1 =
      ⟨3, true, [t3 + 5 * 60 * 1000]⟩ ∧
    (∀ calls : List (Nat × (Nat → AttemptOutcome)),
      (∀ p ∈ calls, t3 ≤ p.1 ∧ p.1 < t3 + 5 * 60 * 1000) →
      ∀ r ∈ (runCalls ⟨3, true, [t3 + 5 * 60 * 1000]⟩ calls).2,
        r.result = .errBlocked ∧ r.networkAttempts = 0 ∧ r.rateLimited = false) ∧
    (∀ st now oracle, (fireTimers st now).blocked = false →
      (makeRequestWithRetry oracle).ok = true →
      (fetchHtmlStep st now oracle).result = .ok ∧
      (fetchHtmlStep st now oracle).state.failCount = 0) := by
  refine ⟨?_, ?_, ?_⟩
  · simp [runCalls, fetchHtmlStep, fireTimers, handleRequestError, freshCircuit, h1, h2, h3]
  · intro calls hw r hr
    refine blocked_run (t3 + 5 * 60 * 1000) calls ⟨3, true, [t3 + 5 * 60 * 1000]⟩ rfl ?_ ?_ r hr
    · intro τ hτ
      rw [List.mem_singleton] at hτ
      omega
    · intro p hp
      have := hw p hp
      exact ⟨this.2, by omega⟩
  · intro st now oracle hnb hok
    simp [fetchHtmlStep, hnb, hok]

/-- Witness for the circuit-breaker theorem at concrete inputs: three failing
calls at time 0 block the URL with a timer at 300000 ms; a call at 100 ms is
rejected as blocked; a successful call on an unblocked state resets the fail
count. -/
theorem circuit_breaker_spec_witness :
    (runCalls freshCircuit [(0, fun _ => .err (some 500)), (0, fun _ => .err (some 500)),
      (0, fun _ => .err (some 500))]).1 = ⟨3, true, [300000]⟩ ∧
    (fetchHtmlStep ⟨3, true, [300000]⟩ 100 (fun _ => .ok)).result = .errBlocked ∧
    (fetchHtmlStep ⟨0, false, []⟩ 7 (fun _ => .ok)).state.failCount = 0 := by
  have h := circuit_breaker_spec 0 0 0 (fun _ => .err (some 500)) (fun _ => .err (some 500))
    (fun _ => .err (some 500)) (by decide) (by decide) (by decide)
  refine ⟨h.1, ?_, ?_⟩
  · exact (h.2.1 [(100, fun _ => .ok)]
      (by
        intro p hp
        rw [List.mem_singleton] at hp
        subst hp
        exact ⟨by norm_num, by norm_num⟩)
      (fetchHtmlStep ⟨3, true, [300000]⟩ 100 (fun _ => .ok))
      (List.mem_singleton.mpr rfl)).1
  · exact (h.2.2 ⟨0, false, []⟩ 7 (fun _ => .ok) (by decide) (by decide)).2

/-- Witness for the retry-policy theorem: with a first attempt failing with
status 500 and a second with status 404, the loop makes exactly two attempts,
waits 1000 ms after the first, and raises the 404 without a third attempt. -/
theorem retry_policy_spec_witness :
    makeRequestWithRetry (fun n => if n = 1 then .err (some 500) else .err (some 404)) =
      ⟨false, some (some 404), 2,
        (List.range 1).map (fun i => min (1000 * 2 ^ i) 5000)⟩ := by
  exact retry_policy_spec.2.2.1 (fun n => if n = 1 then .err (some 500) else .err (some 404))
    2 404 (by norm_num) (by norm_num)
    (by
      intro m hm1 hm2
      have hm : m = 1 := by omega
      subst hm
      decide)
    (by decide) (by decide)
theorem tryStrategies_split (oracle : Strategy → Option String) (r : String) :
    ∀ (pre : List Strategy) (s : Strategy) (post : List Strategy),
      (∀ s' ∈ pre, oracle s' = none) → oracle s = some r →
      tryStrategies oracle (pre ++ s :: post) = (some (s, r), pre ++ [s]) := by
  intro pre
  induction pre with
  | nil =>
    intro s post _ hs
    simp [tryStrategies, hs]
  | cons a rest ih =>
    intro s post hpre hs
    have ha : oracle a = none := hpre a (List.mem_cons_self _ _)
    have := ih s post (fun s' h => hpre s' (List.mem_cons_of_mem _ h)) hs
    simp [tryStrategies, ha, this]

theorem lookup_cacheRSSUrl (st : DetectorState) (u r : String) (now : Nat) :
    (cacheRSSUrl st u r now).rssCache.lookup (detNormalizeUrl u) = some (r, now) := by
  simp [cacheRSSUrl, List.lookup]

/-- C3: when the discovery cache misses and the URL is not recently failed,
findRSSFeed invokes the strategies in the fixed order HTML Head, Domain
Rules, URL Pattern, Common Paths, WordPress; when the strategies before s all
fail and s yields a feed URL, the call returns that URL, invokes exactly the
strategies up to and including s, and stores the result in the discovery
cache under the normalized page URL. -/
theorem discovery_strategy_order (st : DetectorState) (now : Nat) (url : String)
    (oracle : Strategy → Option String) (pre : List Strategy) (s : Strategy)
    (post : List Strategy) (r : String)
    (hc : (getCachedRSS st now (detNormalizeUrl url)).1 = none)
    (hf : ((getCachedRSS st now (detNormalizeUrl url)).2).failedUrls.contains
      (detNormalizeUrl url) = false)
    (hsplit : strategyOrder = pre ++ s :: post)
    (hpre : ∀ s' ∈ pre, oracle s' = none) (hs : oracle s = some r) :
    findRSSFeed st now url oracle =
      (some r,
        cacheRSSUrl ((getCachedRSS st now (detNormalizeUrl url)).2)
          (detNormalizeUrl url) r now,
        pre ++ [s]) ∧
    ((findRSSFeed st now url oracle).2.1).rssCache.lookup
      (detNormalizeUrl (detNormalizeUrl url)) = some (r, now) := by
  have ht := tryStrategies_split oracle r pre s post hpre hs
  have hmain : findRSSFeed st now url oracle =
      (some r,
        cacheRSSUrl ((getCachedRSS st now (detNormalizeUrl url)).2)
          (detNormalizeUrl url) r now,
        pre ++ [s]) := by
    simp only [findRSSFeed, hc, hf, hsplit, ht]
    simp
  refine ⟨hmain, ?_⟩
  rw [hmain]
  exact lookup_cacheRSSUrl _ _ _ _

/-- Witness for the strategy-order theorem: on an empty detector state with
an oracle succeeding only for the URL Pattern strategy, discovery returns its
result after invoking exactly HTML Head, Domain Rules and URL Pattern, and
caches it. -/
theorem discovery_strategy_order_witness :
    findRSSFeed ⟨[], []⟩ 0 "https://a.com/x"
      (fun s => if s = .urlPattern then some "https://a.com/rss/x.rss" else none) =
      (some "https://a.com/rss/x.rss",
        cacheRSSUrl ⟨[], []⟩ "https://a.com/x" "https://a.com/rss/x.rss" 0,
        [.htmlHead, .domainRules, .urlPattern]) := by
  have h := discovery_strategy_order ⟨[], []⟩ 0 "https://a.com/x"
    (fun s => if s = .urlPattern then some "https://a.com/rss/x.rss" else none)
    [.htmlHead, .domainRules] .urlPattern [.commonPaths, .wordpress]
    "https://a.com/rss/x.rss" (by decide) (by decide) (by decide)
    (by decide) (by decide)
  exact h.1
theorem char_toNat_ofNat (n : Nat) (h : n < 55296) : (Char.ofNat n).toNat = n := by
  have hv : n.isValidChar := Or.inl h
  rw [Char.ofNat, dif_pos hv]
  simp [Char.ofNatAux, Char.toNat, UInt32.toNat]

theorem char_isUpper_iff (c : Char) : c.isUpper = true ↔ 65 ≤ c.toNat ∧ c.toNat ≤ 90 := by
  simp only [Char.isUpper, Bool.and_eq_true, decide_eq_true_eq, ge_iff_le,
    UInt32.le_def, BitVec.le_def]
  exact Iff.rfl

theorem char_isLower_iff (c : Char) : c.isLower = true ↔ 97 ≤ c.toNat ∧ c.toNat ≤ 122 := by
  simp only [Char.isLower, Bool.and_eq_true, decide_eq_true_eq, ge_iff_le,
    UInt32.le_def, BitVec.le_def]
  exact Iff.rfl

theorem char_isDigit_iff (c : Char) : c.isDigit = true ↔ 48 ≤ c.toNat ∧ c.toNat ≤ 57 := by
  simp only [Char.isDigit, Bool.and_eq_true, decide_eq_true_eq, ge_iff_le,
    UInt32.le_def, BitVec.le_def]
  exact Iff.rfl

theorem char_eq_iff_toNat (c d : Char) : c = d ↔ c.toNat = d.toNat := by
  constructor
  · intro h; rw [h]
  · intro h; exact Char.ext (UInt32.ext h)

theorem toLower_of_isUpper {c : Char} (h : c.isUpper = true) :
    (c.toLower).toNat = c.toNat + 32 := by
  have hb := (char_isUpper_iff c).mp h
  rw [Char.toLower, if_pos (by omega)]
  exact char_toNat_ofNat (c.toNat + 32) (by omega)

theorem toLower_of_not_isUpper {c : Char} (h : c.isUpper = false) : c.toLower = c := by
  have hb : ¬(65 ≤ c.toNat ∧ c.toNat ≤ 90) := by
    intro hc
    rw [(char_isUpper_iff c).mpr hc] at h
    simp at h
  rw [Char.toLower, if_neg (by omega)]

theorem isLower_toLower_of_isUpper {c : Char} (h : c.isUpper = true) :
    (c.toLower).isLower = true := by
  have hb := (char_isUpper_iff c).mp h
  rw [char_isLower_iff, toLower_of_isUpper h]
  omega

theorem isUpper_toLower (c : Char) : (c.toLower).isUpper = false := by
  by_cases h : c.isUpper = true
  · have := (char_isUpper_iff c).mp h
    rw [Bool.eq_false_iff]
    intro hc
    have h2 := (char_isUpper_iff c.toLower).mp hc
    rw [toLower_of_isUpper h] at h2
    omega
  · rw [toLower_of_not_isUpper (Bool.not_eq_true _ |>.mp h)]
    exact Bool.not_eq_true _ |>.mp h

theorem toLower_idem (c : Char) : c.toLower.toLower = c.toLower :=
  toLower_of_not_isUpper (isUpper_toLower c)

theorem isLower_ne_of_small {c d : Char} (h : c.isLower = true) (hd : d.toNat < 97) :
    c ≠ d := by
  intro he
  have := (char_isLower_iff c).mp h
  rw [he] at this
  omega

theorem char_ne_of_toNat {c d : Char} (h : c.toNat ≠ d.toNat) : c ≠ d :=
  fun he => h (by rw [he])

theorem isLower_isUpper_false {c : Char} (h : c.isLower = true) : c.isUpper = false := by
  have := (char_isLower_iff c).mp h
  rw [Bool.eq_false_iff]
  intro hc
  have := (char_isUpper_iff c).mp hc
  omega

theorem isLower_toLower_fix {c : Char} (h : c.isLower = true) : c.toLower = c :=
  toLower_of_not_isUpper (isLower_isUpper_false h)

theorem isAlpha_toLower_isLower {c : Char} (h : c.isAlpha = true) :
    (c.toLower).isLower = true := by
  rcases Bool.or_eq_true _ _ |>.mp (by simpa [Char.isAlpha] using h) with hu | hl
  · exact isLower_toLower_of_isUpper hu
  · rw [isLower_toLower_fix hl]; exact hl

theorem isLower_not_badHost {c : Char} (h : c.isLower = true) : badHostChar c = false := by
  have hb := (char_isLower_iff c).mp h
  have hne : ∀ d : Char, d.toNat < 97 → c ≠ d := fun d hd he => by
    rw [he] at hb; omega
  simp [badHostChar, authStop, hne '/' (by decide), hne '?' (by decide),
    hne '#' (by decide), hne ':' (by decide), hne '@' (by decide),
    hne '[' (by decide), hne ']' (by decide)]

theorem badHostChar_toLower {c : Char} (h : badHostChar c = false) :
    badHostChar c.toLower = false ∧ (c.toLower).isUpper = false := by
  refine ⟨?_, isUpper_toLower c⟩
  by_cases hu : c.isUpper = true
  · exact isLower_not_badHost (isLower_toLower_of_isUpper hu)
  · rw [toLower_of_not_isUpper (Bool.not_eq_true _ |>.mp hu)]
    exact h

theorem isDigit_not_badHost {c : Char} (h : c.isDigit = true) : badHostChar c = false := by
  have hb := (char_isDigit_iff c).mp h
  have hne : ∀ d : Char, (d.toNat < 48 ∨ 57 < d.toNat) → c ≠ d := fun d hd he => by
    rw [he] at hb; omega
  simp [badHostChar, authStop, hne '/' (by decide), hne '?' (by decide),
    hne '#' (by decide), hne ':' (by decide), hne '@' (by decide),
    hne '[' (by decide), hne ']' (by decide)]

theorem spanAuth_eq_append (l r : List Char) (hl : ∀ c ∈ l, authStop c = false)
    (hr : r = [] ∨ ∃ c rest, r = c :: rest ∧ authStop c = true) :
    spanAuth (l ++ r) = (l, r) := by
  induction l with
  | nil =>
    rcases hr with h | ⟨c, rest, hcr, hc⟩
    · subst h; rfl
    · subst hcr; simp [spanAuth, hc]
  | cons a l' ih =>
    have ha : authStop a = false := hl a (List.mem_cons_self _ _)
    have := ih (fun c h => hl c (List.mem_cons_of_mem _ h))
    simp [spanAuth, ha, this]

theorem spanColon_eq_append (l r : List Char) (hl : ∀ c ∈ l, c ≠ ':')
    (hr : r = [] ∨ ∃ rest, r = ':' :: rest) :
    spanColon (l ++ r) = (l, r) := by
  induction l with
  | nil =>
    rcases hr with h | ⟨rest, hcr⟩
    · subst h; rfl
    · subst hcr; simp [spanColon]
  | cons a l' ih =>
    have ha : a ≠ ':' := hl a (List.mem_cons_self _ _)
    have := ih (fun c h => hl c (List.mem_cons_of_mem _ h))
    simp [spanColon, ha, this]

theorem spanPath_all (l : List Char) (hl : ∀ c ∈ l, c ≠ '?' ∧ c ≠ '#') :
    spanPath l = (l, []) := by
  induction l with
  | nil => rfl
  | cons a l' ih =>
    have ha := hl a (List.mem_cons_self _ _)
    have := ih (fun c h => hl c (List.mem_cons_of_mem _ h))
    simp [spanPath, ha.1, ha.2, this]

theorem spanAuth_fst_no_stop (l : List Char) :
    ∀ c ∈ (spanAuth l).1, authStop c = false := by
  induction l with
  | nil => intro c hc; simp [spanAuth] at hc
  | cons a l' ih =>
    intro c hc
    by_cases ha : authStop a = true
    · simp [spanAuth, ha] at hc
    · rw [Bool.not_eq_true] at ha
      simp only [spanAuth, ha, Bool.false_eq_true, if_false, List.mem_cons] at hc
      rcases hc with hc | hc
      · subst hc; exact ha
      · exact ih c hc

theorem spanAuth_snd_shape (l : List Char) :
    (spanAuth l).2 = [] ∨
      ∃ c rest, (spanAuth l).2 = c :: rest ∧ authStop c = true := by
  induction l with
  | nil => left; rfl
  | cons a l' ih =>
    by_cases ha : authStop a = true
    · right; exact ⟨a, l', by simp [spanAuth, ha], ha⟩
    · rw [Bool.not_eq_true] at ha
      simp only [spanAuth, ha, Bool.false_eq_true, if_false]
      exact ih

theorem spanColon_fst_no_colon (l : List Char) :
    ∀ c ∈ (spanColon l).1, c ≠ ':' := by
  induction l with
  | nil => intro c hc; simp [spanColon] at hc
  | cons a l' ih =>
    intro c hc
    by_cases ha : a = ':'
    · simp [spanColon, ha] at hc
    · rw [spanColon, if_neg ha] at hc
      simp at hc
      rcases hc with hc | hc
      · subst hc; exact ha
      · exact ih c hc

theorem spanColon_fst_sub (l : List Char) : ∀ c ∈ (spanColon l).1, c ∈ l := by
  induction l with
  | nil => intro c hc; simp [spanColon] at hc
  | cons a l' ih =>
    intro c hc
    by_cases ha : a = ':'
    · simp [spanColon, ha] at hc
    · rw [spanColon, if_neg ha] at hc
      simp at hc
      rcases hc with hc | hc
      · subst hc; exact List.mem_cons_self _ _
      · exact List.mem_cons_of_mem _ (ih c hc)

theorem spanPath_fst_no_qh (l : List Char) :
    ∀ c ∈ (spanPath l).1, c ≠ '?' ∧ c ≠ '#' := by
  induction l with
  | nil => intro c hc; simp [spanPath] at hc
  | cons a l' ih =>
    intro c hc
    by_cases ha : a = '?' ∨ a = '#'
    · simp [spanPath, ha] at hc
    · rw [spanPath, if_neg ha] at hc
      simp at hc
      rcases hc with hc | hc
      · subst hc; exact ⟨fun h => ha (Or.inl h), fun h => ha (Or.inr h)⟩
      · exact ih c hc
theorem map_toLower_fix (l : List Char) (h : ∀ c ∈ l, c.isUpper = false) :
    l.map Char.toLower = l := by
  induction l with
  | nil => rfl
  | cons a l' ih =>
    rw [List.map_cons, toLower_of_not_isUpper (h a (List.mem_cons_self _ _)),
      ih (fun c hc => h c (List.mem_cons_of_mem _ hc))]

theorem splitScheme_append (s r : List Char) (hs : ∀ c ∈ s, c ≠ ':') :
    splitScheme (s ++ ':' :: '/' :: '/' :: r) = some (s, r) := by
  induction s with
  | nil => rfl
  | cons a s' ih =>
    have ha : a ≠ ':' := hs a (List.mem_cons_self _ _)
    have := ih (fun c hc => hs c (List.mem_cons_of_mem _ hc))
    simp [splitScheme, ha, this]

theorem badHostChar_components {c : Char} (h : badHostChar c = false) :
    authStop c = false ∧ c ≠ ':' ∧ c ≠ '@' ∧ c ≠ '[' ∧ c ≠ ']' := by
  simp only [badHostChar, Bool.or_eq_false_iff, decide_eq_false_iff_not] at h
  exact ⟨h.1.1.1.1, h.1.1.1.2, h.1.1.2, h.1.2, h.2⟩

theorem parsePort_of_wf (scheme ds : List Char) (hne : ds ≠ [])
    (hdig : ∀ c ∈ ds, c.isDigit = true) (hz : ds.head? = some '0' → ds = ['0'])
    (hdef : isDefaultPort scheme ds = false) :
    parsePort scheme (':' :: ds) = some (some ds) := by
  rw [parsePort]
  rw [if_pos rfl, if_neg hne, if_pos ⟨List.all_eq_true.mpr hdig, hz⟩, if_neg (by simp [hdef])]

theorem parseAuthority_of_wf (scheme host : List Char) (port : Option (List Char))
    (hne : host ≠ []) (hok : ∀ c ∈ host, c.isUpper = false ∧ badHostChar c = false)
    (hport : ∀ ds, port = some ds →
      ds ≠ [] ∧ (∀ c ∈ ds, c.isDigit = true) ∧ (ds.head? = some '0' → ds = ['0']) ∧
      isDefaultPort scheme ds = false) :
    parseAuthority scheme (host ++ portChars port) = some (host, port) := by
  have hhost_bad : ∀ c ∈ host, badHostChar c = false := fun c hc => (hok c hc).2
  have hany : (host ++ portChars port).any (fun c => c = '@' ∨ c = '[' ∨ c = ']') = false := by
    rw [List.any_eq_false]
    intro c hc
    rw [List.mem_append] at hc
    simp only [decide_eq_true_eq]
    rcases hc with hc | hc
    · have := badHostChar_components (hhost_bad c hc)
      tauto
    · cases hp : port with
      | none => rw [hp] at hc; simp [portChars] at hc
      | some ds =>
        rw [hp] at hc
        simp only [portChars, List.mem_cons] at hc
        rcases hc with hc | hc
        · subst hc; decide
        · have := badHostChar_components (isDigit_not_badHost ((hport ds hp).2.1 c hc))
          tauto
  have hcolon : spanColon (host ++ portChars port) = (host, portChars port) := by
    apply spanColon_eq_append
    · exact fun c hc => (badHostChar_components (hhost_bad c hc)).2.1
    · cases hp : port with
      | none => left; rfl
      | some ds => right; exact ⟨ds, rfl⟩
  rw [parseAuthority]
  rw [if_neg (by rw [hany]; exact Bool.false_ne_true)]
  simp only [hcolon]
  rw [if_neg hne]
  have hupper : ∀ c ∈ host, c.isUpper = false := fun c hc => (hok c hc).1
  cases hp : port with
  | none =>
    simp only [hp, portChars]
    rw [show parsePort scheme [] = some none from rfl]
    rw [map_toLower_fix host hupper]
  | some ds =>
    obtain ⟨h1, h2, h3, h4⟩ := hport ds hp
    simp only [hp, portChars]
    rw [parsePort_of_wf scheme ds h1 h2 h3 h4]
    rw [map_toLower_fix host hupper]

theorem isLower_isAlpha {c : Char} (h : c.isLower = true) : c.isAlpha = true := by
  simp [Char.isAlpha, h]

theorem serializeURL_no_qf (u : URLRec) (hq : u.query = []) (hf : u.fragment = []) :
    serializeURL u = u.scheme ++ ':' :: '/' :: '/' ::
      ((u.host ++ portChars u.port) ++ u.path) := by
  simp [serializeURL, originChars, hq, hf, List.append_assoc]

theorem portChars_no_stop (scheme : List Char) (po : Option (List Char))
    (hport : ∀ ds, po = some ds →
      ds ≠ [] ∧ (∀ c ∈ ds, c.isDigit = true) ∧ (ds.head? = some '0' → ds = ['0']) ∧
      isDefaultPort scheme ds = false) :
    ∀ c ∈ portChars po, authStop c = false := by
  intro c hc
  cases hp : po with
  | none => rw [hp] at hc; simp [portChars] at hc
  | some ds =>
    rw [hp] at hc
    simp only [portChars, List.mem_cons] at hc
    rcases hc with hc | hc
    · subst hc; decide
    · exact (badHostChar_components (isDigit_not_badHost ((hport ds hp).2.1 c hc))).1

theorem parseURL_roundtrip (u : URLRec) (hwf : WFURL u) (hq : u.query = [])
    (hf : u.fragment = []) : parseURL (serializeURL u) = some u := by
  obtain ⟨sc, ho, po, pa, qu, fr⟩ := u
  simp only at hq hf
  subst hq hf
  obtain ⟨hsne, hslow, hhne, hhok, hpok, hpane, hpahead, hpaok⟩ := hwf
  simp only at hsne hslow hhne hhok hpok hpane hpahead hpaok
  rw [serializeURL_no_qf _ rfl rfl]
  simp only
  rw [parseURL]
  rw [splitScheme_append sc ((ho ++ portChars po) ++ pa)
    (fun c hc => isLower_ne_of_small (hslow c hc) (by decide))]
  simp only
  rw [if_pos ⟨hsne, List.all_eq_true.mpr (fun c hc => isLower_isAlpha (hslow c hc))⟩]
  simp only [map_toLower_fix sc (fun c hc => isLower_isUpper_false (hslow c hc))]
  have hspan : spanAuth ((ho ++ portChars po) ++ pa) = (ho ++ portChars po, pa) := by
    apply spanAuth_eq_append
    · intro c hc
      rw [List.mem_append] at hc
      rcases hc with hc | hc
      · exact (badHostChar_components (hhok c hc).2).1
      · exact portChars_no_stop sc po hpok c hc
    · right
      cases pa with
      | nil => exact absurd rfl hpane
      | cons c rest =>
        simp only [List.head?] at hpahead
        refine ⟨'/', rest, ?_, by decide⟩
        rw [Option.some_inj] at hpahead
        rw [hpahead]
  simp only [hspan]
  rw [parseAuthority_of_wf sc ho po hhne hhok hpok]
  simp only
  rw [spanPath_all pa hpaok]
  simp only
  rw [if_neg hpane]
theorem parsePort_wf (scheme ps : List Char) (port : Option (List Char))
    (h : parsePort scheme ps = some port) (ds : List Char) (hds : port = some ds) :
    ds ≠ [] ∧ (∀ c ∈ ds, c.isDigit = true) ∧ (ds.head? = some '0' → ds = ['0']) ∧
    isDefaultPort scheme ds = false := by
  subst hds
  cases ps with
  | nil => simp [parsePort] at h
  | cons c ds' =>
    rw [parsePort] at h
    by_cases hc : c = ':'
    case neg => rw [if_neg hc] at h; exact absurd h (by simp)
    rw [if_pos hc] at h
    by_cases he : ds' = []
    case pos => rw [if_pos he] at h; exact absurd h (by simp)
    rw [if_neg he] at h
    by_cases hd : ds'.all Char.isDigit ∧ (ds'.head? = some '0' → ds' = ['0'])
    case neg => rw [if_neg hd] at h; exact absurd h (by simp)
    rw [if_pos hd] at h
    by_cases hdef : isDefaultPort scheme ds' = true
    case pos => rw [if_pos (by simp [hdef])] at h; exact absurd h (by simp)
    rw [if_neg (by simp [hdef])] at h
    rw [Option.some_inj, Option.some_inj] at h
    subst h
    exact ⟨he, List.all_eq_true.mp hd.1, hd.2, Bool.not_eq_true _ |>.mp hdef⟩

theorem parseAuthority_wf (scheme auth host : List Char) (port : Option (List Char))
    (hstop : ∀ c ∈ auth, authStop c = false)
    (h : parseAuthority scheme auth = some (host, port)) :
    host ≠ [] ∧ (∀ c ∈ host, c.isUpper = false ∧ badHostChar c = false) ∧
    (∀ ds, port = some ds → ds ≠ [] ∧ (∀ c ∈ ds, c.isDigit = true) ∧
      (ds.head? = some '0' → ds = ['0']) ∧ isDefaultPort scheme ds = false) := by
  rw [parseAuthority] at h
  by_cases hany : (auth.any fun c => decide (c = '@' ∨ c = '[' ∨ c = ']')) = true
  case pos => rw [if_pos (by simpa using hany)] at h; exact absurd h (by simp)
  rw [if_neg (by simpa using hany)] at h
  simp only at h
  by_cases hne : (spanColon auth).1 = []
  case pos => rw [if_pos hne] at h; exact absurd h (by simp)
  rw [if_neg hne] at h
  cases hpp : parsePort scheme (spanColon auth).2 with
  | none => rw [hpp] at h; exact absurd h (by simp)
  | some port' =>
    rw [hpp] at h
    simp only [Option.some_inj, Prod.mk.injEq] at h
    obtain ⟨hhost, hport⟩ := h
    have hbad : ∀ c ∈ (spanColon auth).1, badHostChar c = false := by
      intro c hc
      have hmem := spanColon_fst_sub auth c hc
      have h1 := hstop c hmem
      have h2 := spanColon_fst_no_colon auth c hc
      have h3 : ¬(c = '@' ∨ c = '[' ∨ c = ']') := by
        rw [Bool.not_eq_true, List.any_eq_false] at hany
        simpa using hany c hmem
      simp only [badHostChar, h1, h2, Bool.or_eq_false_iff, decide_eq_false_iff_not]
      tauto
    refine ⟨?_, ?_, ?_⟩
    · rw [← hhost]
      intro hx
      exact hne (List.map_eq_nil_iff.mp hx)
    · intro c hc
      rw [← hhost] at hc
      rw [List.mem_map] at hc
      obtain ⟨c0, hc0, hlc⟩ := hc
      subst hlc
      have := badHostChar_toLower (hbad c0 hc0)
      exact ⟨this.2, this.1⟩
    · intro ds hds
      exact parsePort_wf scheme (spanColon auth).2 port' hpp ds (by rw [← hport] at hds; exact hds)

theorem spanPath_head_slash (r : List Char) :
    (spanPath ('/' :: r)).1.head? = some '/' := by
  simp [spanPath]
theorem parseURL_wf (l : List Char) (u : URLRec) (hu : parseURL l = some u) :
    WFURL u := by
  rw [parseURL] at hu
  split at hu
  · exact absurd hu (by simp)
  rename_i p sr rest hsp
  split at hu
  case isFalse => exact absurd hu (by simp)
  rename_i hval
  simp only at hu
  have hscheme_ne : sr.map Char.toLower ≠ [] := by
    intro hx
    exact hval.1 (List.map_eq_nil_iff.mp hx)
  have hscheme_low : ∀ c ∈ sr.map Char.toLower, c.isLower = true := by
    intro c hc
    rw [List.mem_map] at hc
    obtain ⟨c0, hc0, hlc⟩ := hc
    subst hlc
    exact isAlpha_toLower_isLower (List.all_eq_true.mp hval.2 c0 hc0)
  have hpath_ne :
      (if (spanPath (spanAuth rest).2).1 = [] then ['/'] else (spanPath (spanAuth rest).2).1) ≠
        [] := by
    split
    · simp
    · assumption
  have hpath_head :
      (if (spanPath (spanAuth rest).2).1 = [] then ['/'] else (spanPath (spanAuth rest).2).1).head? =
        some '/' := by
    split
    · rfl
    · rename_i hne2
      rcases spanAuth_snd_shape rest with hsh | ⟨c, r2, hsh, hstop2⟩
      · rw [hsh] at hne2
        exact absurd (by simp [spanPath]) hne2
      · rw [hsh]
        rw [hsh] at hne2
        simp only [authStop, Bool.or_eq_true, decide_eq_true_eq] at hstop2
        rcases hstop2 with hc | hc | hc
        · subst hc; exact spanPath_head_slash r2
        · subst hc; exact absurd (by simp [spanPath]) hne2
        · subst hc; exact absurd (by simp [spanPath]) hne2
  have hpath_ok :
      ∀ c ∈ (if (spanPath (spanAuth rest).2).1 = [] then ['/']
        else (spanPath (spanAuth rest).2).1), c ≠ '?' ∧ c ≠ '#' := by
    intro c hc
    split at hc
    · rw [List.mem_singleton] at hc
      subst hc
      exact ⟨by decide, by decide⟩
    · exact spanPath_fst_no_qh _ c hc
  split at hu
  · exact absurd hu (by simp)
  rename_i hp host port hpa
  have hafacts := parseAuthority_wf (sr.map Char.toLower) (spanAuth rest).1 host port
    (spanAuth_fst_no_stop rest) hpa
  split at hu
  · rw [Option.some_inj] at hu
    subst hu
    exact ⟨hscheme_ne, hscheme_low, hafacts.1, hafacts.2.1, hafacts.2.2,
      hpath_ne, hpath_head, hpath_ok⟩
  · split at hu
    · rw [Option.some_inj] at hu
      subst hu
      exact ⟨hscheme_ne, hscheme_low, hafacts.1, hafacts.2.1, hafacts.2.2,
        hpath_ne, hpath_head, hpath_ok⟩
    · rw [Option.some_inj] at hu
      subst hu
      exact ⟨hscheme_ne, hscheme_low, hafacts.1, hafacts.2.1, hafacts.2.2,
        hpath_ne, hpath_head, hpath_ok⟩
    · exact absurd hu (by simp)
  · rw [Option.some_inj] at hu
    subst hu
    exact ⟨hscheme_ne, hscheme_low, hafacts.1, hafacts.2.1, hafacts.2.2,
      hpath_ne, hpath_head, hpath_ok⟩
  · exact absurd hu (by simp)
theorem head?_dropLast_of_ne {p : List Char} (h : p.dropLast ≠ []) :
    p.dropLast.head? = p.head? := by
  cases p with
  | nil => rfl
  | cons a rest =>
    cases rest with
    | nil => simp at h
    | cons b r2 => simp [List.dropLast]

theorem cleanPath_wf (p : List Char) (hne : p ≠ []) (hh : p.head? = some '/')
    (hok : ∀ c ∈ p, c ≠ '?' ∧ c ≠ '#') :
    cleanPath p ≠ [] ∧ (cleanPath p).head? = some '/' ∧
      ∀ c ∈ cleanPath p, c ≠ '?' ∧ c ≠ '#' := by
  by_cases hl : p.getLast? = some '/'
  · rw [cleanPath]
    simp only [stripTrailingSlash, if_pos hl]
    by_cases hdl : p.dropLast = []
    · rw [if_pos hdl]
      exact ⟨by simp, rfl, fun c hc => by
        rw [List.mem_singleton] at hc
        subst hc
        exact ⟨by decide, by decide⟩⟩
    · rw [if_neg hdl]
      exact ⟨hdl, by rw [head?_dropLast_of_ne hdl]; exact hh,
        fun c hc => hok c ((List.dropLast_sublist p).subset hc)⟩
  · rw [cleanPath]
    simp only [stripTrailingSlash, if_neg hl, if_neg hne]
    exact ⟨hne, hh, hok⟩

theorem cleanPath_idem (p : List Char)
    (hp : cleanPath p = ['/'] ∨ (cleanPath p).getLast? ≠ some '/') :
    cleanPath (cleanPath p) = cleanPath p := by
  rcases hp with hp | hp
  · rw [hp]
    rfl
  · have hne : cleanPath p ≠ [] := by
      rw [cleanPath]
      split
      · simp
      · assumption
    rw [cleanPath, stripTrailingSlash, if_neg hp, if_neg hne]

theorem cleanRec_wf (u : URLRec) (hwf : WFURL u) :
    WFURL ⟨u.scheme, u.host, u.port, cleanPath u.path, [], []⟩ := by
  have hc := cleanPath_wf u.path hwf.path_ne hwf.path_head hwf.path_ok
  exact ⟨hwf.scheme_ne, hwf.scheme_lower, hwf.host_ne, hwf.host_ok, hwf.port_ok,
    hc.1, hc.2.1, hc.2.2⟩

/-- C9 amended: validateAndNormalizeUrl is idempotent on every accepted URL
whose rewritten path is the root or does not end in a slash, equivalently
whose original path does not end in two or more slashes. On other inputs a
second application strips one more trailing slash, because the source
replaces only a single trailing slash. -/
theorem normalize_idempotent_amended (x y : String) (u : URLRec)
    (hu : parseURL x.data = some u)
    (hy : validateAndNormalizeUrl x = some y)
    (hp : cleanPath u.path = ['/'] ∨ (cleanPath u.path).getLast? ≠ some '/') :
    validateAndNormalizeUrl y = some y := by
  rw [validateAndNormalizeUrl, hu] at hy
  simp only at hy
  by_cases hs : u.scheme = ['h', 't', 't', 'p'] ∨ u.scheme = ['h', 't', 't', 'p', 's']
  case neg => rw [if_neg hs] at hy; exact absurd hy (by simp)
  rw [if_pos hs] at hy
  rw [Option.some_inj] at hy
  subst hy
  have hwf' : WFURL ⟨u.scheme, u.host, u.port, cleanPath u.path, [], []⟩ :=
    cleanRec_wf u (parseURL_wf x.data u hu)
  have hrt : parseURL (String.mk
      (serializeURL ⟨u.scheme, u.host, u.port, cleanPath u.path, [], []⟩)).data =
      some ⟨u.scheme, u.host, u.port, cleanPath u.path, [], []⟩ :=
    parseURL_roundtrip _ hwf' rfl rfl
  rw [validateAndNormalizeUrl, hrt]
  simp only
  rw [if_pos hs]
  rw [Option.some_inj]
  show String.mk (serializeURL ⟨u.scheme, u.host, u.port,
    cleanPath (cleanPath u.path), [], []⟩) = _
  rw [cleanPath_idem u.path hp]

/-- Witness for the amended idempotence theorem at a concrete URL with an
uppercase host and one trailing slash. -/
theorem normalize_idempotent_amended_witness :
    validateAndNormalizeUrl "https://example.com/a" = some "https://example.com/a" := by
  have h := normalize_idempotent_amended "https://Example.com/a/" "https://example.com/a"
    ⟨"https".data, "example.com".data, none, "/a/".data, [], []⟩
    (by decide) (by decide) (by decide)
  exact h

/-- C9 counterexample: the normalizer strips only one trailing slash per
application, so it is not idempotent. The accepted input with path b-slash-
slash normalizes to a URL that normalizes again to something different. -/
theorem normalize_not_idempotent :
    validateAndNormalizeUrl "https://a.com/b//" = some "https://a.com/b/" ∧
    validateAndNormalizeUrl "https://a.com/b/" = some "https://a.com/b" ∧
    ("https://a.com/b" : String) ≠ "https://a.com/b/" :=
  ⟨by decide, by decide, by decide⟩
/-- C6: for a candidate URL not in the failed set whose fetch produced a
body, validateRSSUrl accepts exactly when the body has at least 50 characters
and its lowercase form contains one of the five feed markers; and every
rejected candidate is in the failed-URL set afterwards. -/
theorem discovery_validation_spec :
    (∀ (failed : List String) (url body : String),
      failed.contains url = false →
      ((validateRSSUrl failed url (some body)).1 = true ↔
        50 ≤ body.length ∧ rssMarker (lowerString body) = true)) ∧
    (∀ (failed : List String) (url : String) (fetched : Option String),
      (validateRSSUrl failed url fetched).1 = false →
      (validateRSSUrl failed url fetched).2.contains url = true) := by
  constructor
  · intro failed url body hnf
    rw [validateRSSUrl, if_neg (by rw [hnf]; exact Bool.false_ne_true)]
    by_cases hlen : body.length < 50
    · rw [if_pos hlen]
      simp
      omega
    · rw [if_neg hlen]
      by_cases hm : rssMarker (lowerString body) = true
      · rw [if_pos hm]
        simp [hm]
        omega
      · rw [if_neg hm]
        simp [hm]
  · intro failed url fetched hrej
    unfold validateRSSUrl at hrej ⊢
    by_cases hnf : failed.contains url = true
    · rw [if_pos hnf] at hrej ⊢
      exact hnf
    · rw [Bool.not_eq_true] at hnf
      rw [if_neg (by rw [hnf]; exact Bool.false_ne_true)] at hrej ⊢
      cases fetched with
      | none => simp
      | some body =>
        simp only at hrej ⊢
        by_cases hlen : body.length < 50
        · rw [if_pos hlen]; simp
        · rw [if_neg hlen] at hrej ⊢
          by_cases hm : rssMarker (lowerString body) = true
          · rw [if_pos hm] at hrej
            simp at hrej
          · rw [if_neg hm]; simp

/-- Witness for the validation theorem: a 62-character body containing an rss
opening tag in mixed case is accepted on an empty failed set. -/
theorem discovery_validation_spec_witness :
    (validateRSSUrl [] "https://a.com/rss"
      (some "aaaaaaaaaaaaaaaaaaaaaaaaaaaaaaaaaaaaaaaaaaaaaaaaaa<RSS version>")).1 = true :=
  (discovery_validation_spec.1 [] "https://a.com/rss"
    "aaaaaaaaaaaaaaaaaaaaaaaaaaaaaaaaaaaaaaaaaaaaaaaaaa<RSS version>"
    (by decide)).mpr ⟨by decide, by decide⟩
/-- C4 counterexample: with a discovered feed URL whose content fetch
succeeds with a plausible 124-character rss body but whose parse throws,
extractArticles surfaces the error instead of falling through to HTML
synthesis, even though the page HTML is available and parseable. -/
theorem feed_parse_no_fallthrough :
    extractArticles
      ⟨some "https://a.com/feed",
        fun _ => some (String.mk (List.replicate 120 'a') ++ "<rss"),
        fun _ => none,
        some "<html>page</html>",
        some [⟨"a sample article title", "https://a.com/p1",
          "a sample description long enough", 5⟩]⟩ noOptions = .error := by
  decide

/-- C4 amended: an error thrown while fetching or parsing a discovered feed
propagates to the caller of extractArticles with no fallback to HTML
scraping; the HTML path runs only when discovery yields no feed URL. -/
theorem feed_parse_error_propagates :
    (∀ (o : ScraperOracles) (opts : FeedOptions) (rssUrl content : String),
      o.findRSS = some rssUrl →
      fetchRSSContent (o.fetchRSS rssUrl) = some content →
      o.parseRSS content = none →
      extractArticles o opts = .error) ∧
    (∀ (o : ScraperOracles) (opts : FeedOptions) (html : String) (arts : List Article),
      o.findRSS = none → o.fetchPage = some html → o.parsePage = some arts →
      extractArticles o opts =
        .fromHTML (applyFilters (applyFilters arts opts) opts)) := by
  constructor
  · intro o opts rssUrl content hf hc hp
    rw [extractArticles, hf]
    simp only [hc, hp]
  · intro o opts html arts hf hpage hparse
    rw [extractArticles, hf]
    simp only [hpage, hparse]

/-- Witness for the propagation theorem at concrete oracles: the rss-found
path surfaces the parse error, and the no-feed path synthesizes from HTML. -/
theorem feed_parse_error_propagates_witness :
    extractArticles
      ⟨some "u", fun _ => some (String.mk (List.replicate 120 'a') ++ "<rss"),
        fun _ => none, none, none⟩ noOptions = .error ∧
    extractArticles
      ⟨none, fun _ => none, fun _ => none, some "<html>h</html>",
        some [⟨"another sample title here", "https://b.com/p",
          "another long enough description", 3⟩]⟩ noOptions =
      .fromHTML (applyFilters (applyFilters
        [⟨"another sample title here", "https://b.com/p",
          "another long enough description", 3⟩] noOptions) noOptions) := by
  constructor
  · exact feed_parse_error_propagates.1
      ⟨some "u", fun _ => some (String.mk (List.replicate 120 'a') ++ "<rss"),
        fun _ => none, none, none⟩ noOptions "u"
      (String.mk (List.replicate 120 'a') ++ "<rss") rfl (by decide) rfl
  · exact feed_parse_error_propagates.2
      ⟨none, fun _ => none, fun _ => none, some "<html>h</html>",
        some [⟨"another sample title here", "https://b.com/p",
          "another long enough description", 3⟩]⟩ noOptions "<html>h</html>"
      [⟨"another sample title here", "https://b.com/p",
        "another long enough description", 3⟩] rfl rfl rfl
theorem collectValid_mem :
    ∀ (cands : List Article) (seen : List String) (a : Article),
      a ∈ collectValid cands seen →
      validateArticle a = true ∧ seen.contains a.url = false := by
  intro cands
  induction cands with
  | nil => intro seen a ha; simp [collectValid] at ha
  | cons c rest ih =>
    intro seen a ha
    rw [collectValid] at ha
    split at ha
    · rename_i hg
      rw [List.mem_cons] at ha
      rcases ha with ha | ha
      · subst ha
        exact ⟨hg.1, by simpa using hg.2⟩
      · have := ih (c.url :: seen) a ha
        refine ⟨this.1, ?_⟩
        have h2 := this.2
        simp only [List.contains_cons, Bool.or_eq_false_iff] at h2
        exact h2.2
    · exact ih seen a ha

theorem collectValid_pairwise :
    ∀ (cands : List Article) (seen : List String),
      (collectValid cands seen).Pairwise (fun a b => a.url ≠ b.url) := by
  intro cands
  induction cands with
  | nil => intro seen; simp [collectValid]
  | cons c rest ih =>
    intro seen
    rw [collectValid]
    split
    · refine List.Pairwise.cons ?_ (ih (c.url :: seen))
      intro b hb
      have := (collectValid_mem rest (c.url :: seen) b hb).2
      simp only [List.contains_cons, Bool.or_eq_false_iff] at this
      intro he
      rw [he] at this
      simp at this
    · exact ih seen

/-- C7: every article list produced by the content parser pipeline has
pairwise distinct links, no title of fewer than 10 characters (the code in
fact requires strictly more than 10), is sorted by publication date newest
first, and contains at most maxArticlesPerFeed entries. -/
theorem content_extractor_invariants (maxArticles : Nat)
    (candidates l : List Article)
    (h : parseArticles maxArticles candidates = some l) :
    l.Pairwise (fun a b => a.url ≠ b.url) ∧
    (∀ a ∈ l, ¬ a.title.length < 10) ∧
    l.Sorted newerFirst ∧
    l.length ≤ maxArticles := by
  rw [parseArticles] at h
  split at h
  · exact absurd h (by simp)
  rw [Option.some_inj] at h
  subst h
  rw [sortAndLimitArticles]
  have hperm := List.perm_insertionSort newerFirst (collectValid candidates [])
  refine ⟨?_, ?_, ?_, ?_⟩
  · refine List.Pairwise.sublist (List.take_sublist _ _) ?_
    exact (hperm.pairwise_iff (fun h => Ne.symm h)).mpr (collectValid_pairwise candidates [])
  · intro a ha
    have hmem : a ∈ collectValid candidates [] :=
      hperm.mem_iff.mp ((List.take_sublist _ _).subset ha)
    have hv := (collectValid_mem candidates [] a hmem).1
    rw [validateArticle, decide_eq_true_eq] at hv
    obtain ⟨-, h10, -⟩ := hv
    omega
  · exact List.Pairwise.sublist (List.take_sublist _ _)
      (List.sorted_insertionSort newerFirst _)
  · rw [List.length_take]
    exact min_le_left _ _

/-- Witness for the content-extractor invariants at a concrete candidate
list: a duplicate link and limit 2 leave the two newest distinct articles in
descending date order. -/
theorem content_extractor_invariants_witness :
    ([⟨"d title long enough", "u4", "fourth description long enough", 8⟩,
      ⟨"c title long enough", "u3", "third description long enough!", 7⟩] :
        List Article).Pairwise (fun a b => a.url ≠ b.url) ∧
    (∀ a ∈ ([⟨"d title long enough", "u4", "fourth description long enough", 8⟩,
      ⟨"c title long enough", "u3", "third description long enough!", 7⟩] :
        List Article), ¬ a.title.length < 10) ∧
    ([⟨"d title long enough", "u4", "fourth description long enough", 8⟩,
      ⟨"c title long enough", "u3", "third description long enough!", 7⟩] :
        List Article).Sorted newerFirst ∧
    ([⟨"d title long enough", "u4", "fourth description long enough", 8⟩,
      ⟨"c title long enough", "u3", "third description long enough!", 7⟩] :
        List Article).length ≤ 2 :=
  content_extractor_invariants 2
    [⟨"a title long enough", "u1", "a description that is long enough", 5⟩,
     ⟨"b title long enough", "u1", "another description long enough", 9⟩,
     ⟨"c title long enough", "u3", "third description long enough!", 7⟩,
     ⟨"d title long enough", "u4", "fourth description long enough", 8⟩]
    [⟨"d title long enough", "u4", "fourth description long enough", 8⟩,
     ⟨"c title long enough", "u3", "third description long enough!", 7⟩]
    (by decide)
/-- C5 counterexample: the content-cache key is not a concatenation of a
16-character and an 8-character hexadecimal digest in either order: for the
page URL https-example-com the key starts with the characters feed, an
underscore and the domain, and an underscore is not a hexadecimal digit.
The actual key is built from base64 fragments, not sha256. -/
theorem cache_key_not_sha256 :
    ¬ ∃ (a sep b : String), a.length = 16 ∧ b.length = 8 ∧
      (∀ c ∈ a.data, c ∈ hexDigits) ∧ (∀ c ∈ b.data, c ∈ hexDigits) ∧
      (getCacheKey "https://example.com/" noOptions = a ++ sep ++ b ∨
       getCacheKey "https://example.com/" noOptions = b ++ sep ++ a) := by
  rintro ⟨a, sep, b, ha, hb, hha, hhb, hor | hor⟩
  · have hk : (getCacheKey "https://example.com/" noOptions).data =
        a.data ++ (sep.data ++ b.data) := by
      rw [hor, String.data_append, String.data_append, List.append_assoc]
    have hlen : a.data.length = 16 := ha
    have htake : a.data = ((getCacheKey "https://example.com/" noOptions).data).take 16 := by
      rw [hk, ← hlen, List.take_left]
    have hmem : '_' ∈ a.data := by
      rw [htake]
      decide
    exact absurd (hha '_' hmem) (by decide)
  · have hk : (getCacheKey "https://example.com/" noOptions).data =
        b.data ++ (sep.data ++ a.data) := by
      rw [hor, String.data_append, String.data_append, List.append_assoc]
    have hlen : b.data.length = 8 := hb
    have htake : b.data = ((getCacheKey "https://example.com/" noOptions).data).take 8 := by
      rw [hk, ← hlen, List.take_left]
    have hmem : '_' ∈ b.data := by
      rw [htake]
      decide
    exact absurd (hhb '_' hmem) (by decide)

/-- C5 amended: the content-cache key is feed underscore domain underscore
base64(url) cut to 10 characters underscore base64(JSON of the canonical
options) cut to 8 characters; it depends on the options only through the
canonical fields title, description and limit, so any option fields outside
that set never change the key. -/
theorem cache_key_canonical_options (url : String) (o1 o2 : FeedOptions)
    (ht : o1.title = o2.title) (hd : o1.description = o2.description)
    (hl : o1.limit = o2.limit) :
    getCacheKey url o1 = getCacheKey url o2 := by
  rw [getCacheKey, getCacheKey, hashOptions, hashOptions,
    stringifyRelevantOptions, stringifyRelevantOptions, ht, hd, hl]

/-- Witness for the canonical-options theorem: keyword, date and extra
fields differ, the canonical fields agree, and the keys coincide. -/
theorem cache_key_canonical_options_witness :
    getCacheKey "https://example.com/"
      ⟨some "T", none, some 3, some "k", none, none, []⟩ =
    getCacheKey "https://example.com/"
      ⟨some "T", none, some 3, none, some 5, some 9, [("page", "2")]⟩ :=
  cache_key_canonical_options "https://example.com/"
    ⟨some "T", none, some 3, some "k", none, none, []⟩
    ⟨some "T", none, some 3, none, some 5, some 9, [("page", "2")]⟩ rfl rfl rfl
theorem isPrefixOf_append_self (p t : List Char) : p.isPrefixOf (p ++ t) = true := by
  induction p with
  | nil => simp [List.isPrefixOf]
  | cons a p' ih => simp [List.isPrefixOf, ih]

theorem containsSub_of_append (p t : List Char) : containsSub p (p ++ t) = true := by
  cases hp : p ++ t with
  | nil =>
    have : p = [] := by
      cases p with
      | nil => rfl
      | cons a q => simp at hp
    subst this
    rfl
  | cons c rest =>
    rw [containsSub, ← hp, isPrefixOf_append_self]
    rfl

/-- C10 counterexample: clearing the cache for the URL with host foo also
removes the entry of the different domain foo-underscore-bar.com, because
the substring feed-underscore-foo-underscore occurs in that key. -/
theorem clear_cache_cross_domain :
    extractDomainS "https://foo/" ≠ extractDomainS "https://foo_bar.com/x" ∧
    clearCacheByUrl [(getCacheKey "https://foo_bar.com/x" noOptions, "<rss/>")]
      "https://foo" = some [] := by
  exact ⟨by decide, by decide⟩

/-- C10 amended: clearCache with a URL removes exactly the entries whose key
contains the substring feed underscore domain underscore; this removes every
entry cached for any page and option set of the same domain, but can also
remove entries of a different domain whose key happens to contain that
substring (for example domain foo versus foo-underscore-bar.com), and leaves
every other entry unchanged. -/
theorem clear_cache_domain_spec (cache cache' : List (String × String))
    (url nurl : String)
    (hn : validateAndNormalizeUrl url = some nurl)
    (hc : clearCacheByUrl cache url = some cache') :
    (∀ (u' : String) (o' : FeedOptions) (xml : String),
      extractDomainS u' = extractDomainS nurl →
      (getCacheKey u' o', xml) ∉ cache') ∧
    (∀ kv ∈ cache,
      containsSub ("feed_".data ++ (extractDomainS nurl).data ++ "_".data)
        kv.1.data = false → kv ∈ cache') := by
  rw [clearCacheByUrl, hn] at hc
  simp only [Option.some_inj] at hc
  subst hc
  constructor
  · intro u' o' xml hdom hmem
    rw [List.mem_filter] at hmem
    have hpred := hmem.2
    rw [Bool.not_eq_true'] at hpred
    have hkey : containsSub
        ("feed_".data ++ (extractDomainS nurl).data ++ "_".data)
        (getCacheKey u' o').data = true := by
      rw [getCacheKey]
      show containsSub ("feed_".data ++ (extractDomainS nurl).data ++ "_".data)
        ("feed_".data ++ (extractDomainS u').data ++ "_".data ++
          (base64OfString u').take 10 ++ "_".data ++ hashOptions o') = true
      rw [hdom]
      have h2 := containsSub_of_append
        ("feed_".data ++ (extractDomainS nurl).data ++ "_".data)
        ((base64OfString u').take 10 ++ "_".data ++ hashOptions o')
      have h3 : ("feed_".data ++ (extractDomainS nurl).data ++ "_".data) ++
          ((base64OfString u').take 10 ++ "_".data ++ hashOptions o') =
          "feed_".data ++ (extractDomainS nurl).data ++ "_".data ++
            (base64OfString u').take 10 ++ "_".data ++ hashOptions o' := by
        simp [List.append_assoc]
      rw [h3] at h2
      exact h2
    simp only at hpred
    rw [hpred] at hkey
    exact Bool.false_ne_true hkey
  · intro kv hm hpred
    rw [List.mem_filter]
    exact ⟨hm, by rw [hpred]; rfl⟩

/-- Witness for the clearCache theorem on a concrete two-entry cache: the
same-domain entry (any page, any options) is gone and the other-domain entry
survives. -/
theorem clear_cache_domain_spec_witness :
    (getCacheKey "https://foo/a" ⟨some "T", none, none, none, none, none, []⟩, "x1") ∉
      [(getCacheKey "https://bar.com/" noOptions, "x2")] ∧
    (getCacheKey "https://bar.com/" noOptions, "x2") ∈
      [(getCacheKey "https://bar.com/" noOptions, "x2")] := by
  have h := clear_cache_domain_spec
    [(getCacheKey "https://foo/a" ⟨some "T", none, none, none, none, none, []⟩, "x1"),
     (getCacheKey "https://bar.com/" noOptions, "x2")]
    [(getCacheKey "https://bar.com/" noOptions, "x2")]
    "https://foo" "https://foo/" (by decide) (by decide)
  constructor
  · exact h.1 "https://foo/a" ⟨some "T", none, none, none, none, none, []⟩ "x1" (by decide)
  · exact h.2 (getCacheKey "https://bar.com/" noOptions, "x2")
      (by simp) (by decide)
/-- C8: the URL validator evaluated at IPv6 private addresses. For an IPv6
literal the WHATWG URL hostname getter returns the address in square
brackets, so the anchored regexes of isPrivateIP for fe80 link-local and
fc00 or fd00 unique-local ranges can never match and those URLs are
accepted, contradicting the intent documented in the source comments; the
IPv4 private ranges, the localhost and 0.0.0.0 and double-colon-1 patterns
and the port list behave as the claim states. -/
theorem private_host_filter_misses_ipv6 :
    validateUrl "http:" "[fe80::2]" none = true ∧
    validateUrl "http:" "[fd12::2]" none = true ∧
    validateUrl "http:" "[fc00::2]" none = true ∧
    validateUrl "http:" "10.1.2.3" none = false ∧
    validateUrl "http:" "172.20.1.1" none = false ∧
    validateUrl "http:" "192.168.0.5" none = false ∧
    validateUrl "http:" "localhost" none = false ∧
    validateUrl "http:" "0.0.0.0" none = false ∧
    validateUrl "http:" "[::1]" none = false ∧
    validateUrl "https:" "example.com" (some 22) = false ∧
    validateUrl "https:" "example.com" (some 3306) = false ∧
    validateUrl "https:" "example.com" (some 8080) = true := by
  decide
